import Mathlib

/-!
Shallow embedding of `cat-all-files.py` (directory-tree content aggregator).

Modelling conventions:
* A filesystem path is its list of components (`PathParts`); `Path.parts`.
* The external world seen by one candidate file (stat result, raw bytes,
  decoded content, prompt reply, and whether each outward effect raises)
  is a `FileOracle`.  `none` in an `Option` field means the corresponding
  Python call raises an exception.
* Python's `re` module is an external collaborator, abstracted as a
  `RegexOracle`: whether a pattern compiles, and whether a compiled
  (case-insensitive) search finds a match.
* The mutable world (the global `summary` dict, the combine buffer, the log
  file, the clipboard, console output) is a `RunState` threaded through the
  translation; `try/except` is flattened: each raise point directly produces
  the state the `except` handler leaves behind.
* Machine floats for the size check are modelled as exact rationals.
-/

namespace CatAllFiles

abbrev PathParts := List String

/-- `str(Path)` with posix separators (only used to build log entries). -/
def pathStr (p : PathParts) : String := String.intercalate "/" p

/-- `pathlib.PurePath.suffix` of a file name: the part from the last dot,
    unless that dot is the first or last character of the name. -/
def pathSuffix (name : String) : String :=
  let cs := name.data
  match cs.reverse.findIdx? (fun c => c = '.') with
  | none => ""
  | some k =>
    let i := cs.length - 1 - k
    if 0 < i ∧ i < cs.length - 1 then String.mk (cs.drop i) else ""

/-- `str.lower()`, character-by-character ASCII lower-casing. -/
def strLower (s : String) : String := String.mk (s.data.map Char.toLower)

/-- `is_binary_file` (source lines 34-40): reads at most the first 1024 raw
    bytes (`chunk_size` default, never overridden) and reports binary iff a
    NUL byte occurs; any read failure (`raw = none`) also reports binary. -/
def is_binary_file (raw : Option (List Nat)) : Bool :=
  match raw with
  | some bs => (bs.take 1024).contains 0
  | none => true

/-- `should_ignore` (source lines 42-45). -/
def should_ignore (path : PathParts) (ignore_set : List String)
    (include_hidden : Bool) : Bool :=
  if !include_hidden && path.any (fun part => part != "." && part.startsWith ".") then
    true
  else
    path.any (fun part => ignore_set.contains part)

/-- Abstraction of Python's `re` module (external collaborator).
    `compiles pat` is whether `re.compile(pat)` succeeds; `found pat text` is
    `re.search(pat, text, re.IGNORECASE) is not None` for a compiling `pat`;
    `wordFound pat text` is the same for the always-compiling pattern
    `rf"\b\x7bre.escape(pat)\x7d\b"`. -/
structure RegexOracle where
  compiles : String → Bool
  found : String → String → Bool
  wordFound : String → String → Bool

/-- Contiguous-subsequence search on character lists (Python `in` on str). -/
def subSearch (needle : List Char) : List Char → Bool
  | [] => needle.isEmpty
  | c :: rest => needle.isPrefixOf (c :: rest) || subSearch needle rest

/-- `search.lower() in content.lower()`. -/
def strContainsCI (content search : String) : Bool :=
  subSearch (strLower search).data (strLower content).data

/-- `matches_search` (source lines 47-52).  `Except.error ()` is the
    `re.error` raised when a regex pattern does not compile. -/
def matches_search (ro : RegexOracle) (content search : String)
    (regex whole_word : Bool) : Except Unit Bool :=
  if regex then
    if ro.compiles search then Except.ok (ro.found search content)
    else Except.error ()
  else if whole_word then
    Except.ok (ro.wordFound search content)
  else
    Except.ok (strContainsCI content search)

/-- The global `summary` dict (source lines 17-22); `extensions` is an
    insertion-ordered dict modelled as an association list. -/
structure Summary where
  files_read : Nat
  lines_read : Nat
  bytes_read : Nat
  extensions : List (String × Nat)
deriving Repr, DecidableEq

/-- `d[ext] = d.get(ext, 0) + 1` on an insertion-ordered dict. -/
def dictBump : List (String × Nat) → String → List (String × Nat)
  | [], ext => [(ext, 1)]
  | (k, v) :: rest, ext =>
    if k = ext then (k, v + 1) :: rest else (k, v) :: dictBump rest ext

/-- The four summary updates of source lines 86-90. -/
def bumpSummary (sm : Summary) (lines size_bytes : Nat) (ext : String) : Summary :=
  { files_read := sm.files_read + 1,
    lines_read := sm.lines_read + lines,
    bytes_read := sm.bytes_read + size_bytes,
    extensions := dictBump sm.extensions ext }

/-- `file_path.suffix.lower() or '[no-ext]'` (source line 89). -/
def normExtOf (path : PathParts) : String :=
  let e := strLower (pathSuffix (path.getLastD ""))
  if e = "" then "[no-ext]" else e

/-- Status of the log file resource across the run. -/
inductive LogStatus
  | noLog
  | opened (content : String)
  | closed (content : String)
deriving Repr, DecidableEq

/-- Console messages the model keeps track of (colored text elided). -/
inductive Msg
  | skipLarge (p : PathParts)
  | promptLarge (p : PathParts)
  | skipBinary (p : PathParts)
  | dryRunWouldRead (p : PathParts)
  | header (p : PathParts) (lines size_bytes : Nat)
  | content (s : String)
  | copied
  | failed (p : PathParts)
  | combinedCopied (n : Nat)
  | interrupted
  | summaryOut (s : Summary)
deriving Repr, DecidableEq

/-- The mutable world of one run: `summary` (module-level global, zero at
    start), the `combined` buffer, the log file, the clipboard (list of
    payloads written, in order) and the console transcript. -/
structure RunState where
  summary : Summary
  combined : Option (List String)
  log : LogStatus
  clipboard : List String
  console : List Msg
deriving Repr, DecidableEq

/-- The per-file keyword arguments of `print_file_contents`
    (source lines 54-56), as threaded through from `main`. -/
structure Config where
  copy_clipboard : Bool
  verbose : Bool
  max_size_mb : Option Rat
  search : Option String
  regex : Bool
  whole_word : Bool
  dry_run : Bool
  interactive_large : Bool
deriving Repr, DecidableEq

/-- External behavior of one candidate file: `none` means the Python call
    raises.  `printRaises`, `logWriteRaises`, `clipboardRaises` inject
    failures into the corresponding outward effects of the emission phase. -/
structure FileOracle where
  statSize : Option Nat
  binChunk : Option (List Nat)
  readContent : Option String
  promptAnswer : String
  printRaises : Bool
  logWriteRaises : Bool
  clipboardRaises : Bool
deriving Repr, DecidableEq

/-- How one call of `print_file_contents` ended. -/
inductive FileOutcome
  | skippedTooLarge
  | skippedBinary
  | dryRunSkip
  | noMatch
  | processed
  | failed
deriving Repr, DecidableEq

/-- Observable stages of the per-file pipeline, in the order the source
    reaches them; the returned trace records which stages ran. -/
inductive Step
  | statCall
  | sizeCheck
  | prompt
  | binaryCheck
  | dryRunAnnounce
  | openRead
  | searchEval
  | emit
deriving Repr, DecidableEq

/-- `f"\n--- \x7bfile_path\x7d ---\n\x7bcontents\x7d\n"` (source line 96). -/
def logEntry (path : PathParts) (contents : String) : String :=
  "\n--- " ++ pathStr path ++ " ---\n" ++ contents ++ "\n"

/-- Source lines 102-103: `if combine is not None: combine.append(contents)`,
    then the `try` body ends normally. -/
def pfcCombine (contents : String) (tr : List Step) (st : RunState) :
    RunState × FileOutcome × List Step :=
  let st :=
    match st.combined with
    | some buf => { st with combined := some (buf ++ [contents]) }
    | none => st
  (st, FileOutcome.processed, tr)

/-- Source lines 98-100: per-file clipboard copy (may raise, caught by the
    per-file handler of line 104). -/
def pfcClip (cfg : Config) (path : PathParts) (ox : FileOracle)
    (contents : String) (tr : List Step) (st : RunState) :
    RunState × FileOutcome × List Step :=
  if cfg.copy_clipboard then
    if ox.clipboardRaises then
      ({ st with console := st.console ++ [Msg.failed path] }, FileOutcome.failed, tr)
    else
      pfcCombine contents tr
        { st with clipboard := st.clipboard ++ [contents],
                  console := st.console ++ [Msg.copied] }
  else
    pfcCombine contents tr st

/-- Source lines 85-103: the emission phase.  The summary update (lines
    86-90) happens before the header/content prints, the log write and the
    clipboard copy; any of those three effects may raise and be caught by the
    per-file handler (line 104).  A log write only happens while the sink is
    open (`if logger:`; the sink is open for the whole processing loop). -/
def pfcEmit (cfg : Config) (path : PathParts) (ox : FileOracle)
    (size_bytes : Nat) (contents : String) (tr : List Step) (st : RunState) :
    RunState × FileOutcome × List Step :=
  let lines := contents.data.count '\n'
  let st := { st with summary := bumpSummary st.summary lines size_bytes (normExtOf path) }
  let tr := tr ++ [Step.emit]
  if ox.printRaises then
    ({ st with console := st.console ++ [Msg.failed path] }, FileOutcome.failed, tr)
  else
    let st := { st with console := st.console ++ [Msg.header path lines size_bytes, Msg.content contents] }
    match st.log with
    | LogStatus.opened logc =>
      if ox.logWriteRaises then
        ({ st with console := st.console ++ [Msg.failed path] }, FileOutcome.failed, tr)
      else
        pfcClip cfg path ox contents tr
          { st with log := LogStatus.opened (logc ++ logEntry path contents) }
    | _ => pfcClip cfg path ox contents tr st

/-- Source lines 76-103: the dry-run branch, then open/read with lossy
    decode (a raise here is caught per file), then the search gate (`if
    search and not matches_search(...)`: an empty search string is falsy and
    disables the gate; a non-compiling regex raises inside `matches_search`
    and is caught by the same per-file handler), then emission. -/
def pfcRead (ro : RegexOracle) (cfg : Config) (path : PathParts)
    (ox : FileOracle) (size_bytes : Nat) (tr : List Step) (st : RunState) :
    RunState × FileOutcome × List Step :=
  if cfg.dry_run then
    ({ st with console := st.console ++ [Msg.dryRunWouldRead path] },
     FileOutcome.dryRunSkip, tr ++ [Step.dryRunAnnounce])
  else
    match ox.readContent with
    | none =>
      ({ st with console := st.console ++ [Msg.failed path] },
       FileOutcome.failed, tr ++ [Step.openRead])
    | some contents =>
      let tr := tr ++ [Step.openRead]
      match cfg.search with
      | some q =>
        if q ≠ "" then
          match matches_search ro contents q cfg.regex cfg.whole_word with
          | Except.error _ =>
            ({ st with console := st.console ++ [Msg.failed path] },
             FileOutcome.failed, tr ++ [Step.searchEval])
          | Except.ok false => (st, FileOutcome.noMatch, tr ++ [Step.searchEval])
          | Except.ok true =>
            pfcEmit cfg path ox size_bytes contents (tr ++ [Step.searchEval]) st
        else
          pfcEmit cfg path ox size_bytes contents tr st
      | none =>
        pfcEmit cfg path ox size_bytes contents tr st

/-- Source lines 71-103: binary detection onwards. -/
def pfcAfterSizeGate (ro : RegexOracle) (cfg : Config) (path : PathParts)
    (ox : FileOracle) (size_bytes : Nat) (tr : List Step) (st : RunState) :
    RunState × FileOutcome × List Step :=
  if is_binary_file ox.binChunk then
    let st := if cfg.verbose then { st with console := st.console ++ [Msg.skipBinary path] } else st
    (st, FileOutcome.skippedBinary, tr ++ [Step.binaryCheck])
  else
    pfcRead ro cfg path ox size_bytes (tr ++ [Step.binaryCheck]) st

/-- `size_bytes / (1024 * 1024)` (source line 59), as an exact rational. -/
def sizeMB (n : Nat) : Rat := (n : Rat) / (1024 * 1024)

/-- `print_file_contents` (source lines 54-105).  `stat` may raise (caught
    per file); the size check compares `size_bytes / (1024*1024)` against the
    optional threshold strictly; in interactive mode a prompt reply other
    than (case-insensitive) "y" skips the file. -/
def print_file_contents (ro : RegexOracle) (cfg : Config) (path : PathParts)
    (ox : FileOracle) (st : RunState) : RunState × FileOutcome × List Step :=
  match ox.statSize with
  | none =>
    ({ st with console := st.console ++ [Msg.failed path] },
     FileOutcome.failed, [Step.statCall])
  | some size_bytes =>
    let size_mb : Rat := sizeMB size_bytes
    let tr := [Step.statCall, Step.sizeCheck]
    match cfg.max_size_mb with
    | some t =>
      if size_mb > t then
        if cfg.interactive_large then
          let st := { st with console := st.console ++ [Msg.promptLarge path] }
          let tr := tr ++ [Step.prompt]
          if strLower ox.promptAnswer ≠ "y" then
            (st, FileOutcome.skippedTooLarge, tr)
          else
            pfcAfterSizeGate ro cfg path ox size_bytes tr st
        else
          let st := if cfg.verbose then { st with console := st.console ++ [Msg.skipLarge path] } else st
          (st, FileOutcome.skippedTooLarge, tr)
      else
        pfcAfterSizeGate ro cfg path ox size_bytes tr st
    | none =>
      pfcAfterSizeGate ro cfg path ox size_bytes tr st

/-- A directory snapshot: named files and named subdirectories, in the order
    `os.scandir` yields them. -/
inductive FSEntry
  | file (name : String)
  | dir (name : String) (entries : List FSEntry)
deriving Repr

mutual

/-- Source lines 114-123: the candidate-collection phase of
    `traverse_and_read`.  For the directory at path `p` with entries `es`,
    `os.walk(topdown=True)` yields this directory first: its files are
    filtered by `should_ignore` and (when non-empty) the extension
    allow-list, in scandir order; ignored subdirectories are pruned from
    `dirs` in place, so the walk then descends only into surviving
    subdirectories, in order. -/
def walkDir (ig : List String) (ih : Bool) (exts : List String)
    (p : PathParts) (es : List FSEntry) : List PathParts :=
  let here := es.filterMap fun e =>
    match e with
    | FSEntry.file n =>
      let fp := p ++ [n]
      if should_ignore fp ig ih then none
      else if exts ≠ [] ∧ ¬ strLower (pathSuffix n) ∈ exts then none
      else some fp
    | FSEntry.dir _ _ => none
  here ++ walkSubdirs ig ih exts p es
termination_by (sizeOf es, 1)

/-- Descent into the surviving subdirectories (the pruning of source
    line 116 followed by `os.walk`'s recursion). -/
def walkSubdirs (ig : List String) (ih : Bool) (exts : List String)
    (p : PathParts) : List FSEntry → List PathParts
  | [] => []
  | FSEntry.file _ :: rest => walkSubdirs ig ih exts p rest
  | FSEntry.dir n sub :: rest =>
    (if should_ignore (p ++ [n]) ig ih then [] else walkDir ig ih exts (p ++ [n]) sub) ++
      walkSubdirs ig ih exts p rest
termination_by es => (sizeOf es, 0)

end

/-- Python `open(path, 'w')` semantics: the file's previous content is
    discarded and writing starts from the empty string. -/
def openTruncate (_prior : String) : String := ""

/-- The initial `RunState` of one run: zeroed module-level `summary`
    (source lines 17-22), `combined = [] if combine_all else None` and
    `logger = open(log_file, 'w', ...) if log_file else None`
    (source lines 111-112). -/
def initState (combine_all log_file : Bool) (priorLog : String) : RunState :=
  { summary := { files_read := 0, lines_read := 0, bytes_read := 0, extensions := [] },
    combined := if combine_all then some [] else none,
    log := if log_file then LogStatus.opened (openTruncate priorLog) else LogStatus.noLog,
    clipboard := [],
    console := [] }

/-- Source lines 125-138: the sequential processing loop over the candidate
    list.  `interruptAt = some k` models a `KeyboardInterrupt` delivered just
    before candidate `k` is processed; the exception propagates out of
    `traverse_and_read` carrying the state at that moment (`Except.error`).
    On normal completion the per-file outcomes are returned alongside the
    final state, in candidate order. -/
def processLoop (ro : RegexOracle) (cfg : Config) (ox : PathParts → FileOracle)
    (interruptAt : Option Nat) :
    List PathParts → Nat → RunState →
    Except RunState (RunState × List (PathParts × FileOutcome))
  | [], _, st => Except.ok (st, [])
  | p :: rest, i, st =>
    if interruptAt = some i then Except.error st
    else
      let r := print_file_contents ro cfg p (ox p) st
      match processLoop ro cfg ox interruptAt rest (i + 1) r.1 with
      | Except.error st2 => Except.error st2
      | Except.ok (st2, results) => Except.ok (st2, (p, r.2.1) :: results)

/-- `traverse_and_read` (source lines 107-146): open resources, collect the
    candidate list, process it in order, then the combine-mode clipboard
    write (`if combine_all and combined:`, a non-empty-list check) and the
    log close — both of which run only on normal completion; an interrupt
    propagates (`Except.error`) past them. -/
def traverse_and_read (ro : RegexOracle) (ignore_set only_exts : List String)
    (include_hidden combine_all log_file : Bool) (cfg : Config)
    (rootParts : PathParts) (tree : List FSEntry) (ox : PathParts → FileOracle)
    (interruptAt : Option Nat) (priorLog : String) :
    Except RunState (RunState × List (PathParts × FileOutcome)) :=
  let st := initState combine_all log_file priorLog
  let all_files := walkDir ignore_set include_hidden only_exts rootParts tree
  match processLoop ro cfg ox interruptAt all_files 0 st with
  | Except.error st => Except.error st
  | Except.ok (st, results) =>
    let st :=
      match st.combined with
      | some buf =>
        if combine_all ∧ buf ≠ [] then
          { st with clipboard := st.clipboard ++ [String.intercalate "\n\n" buf],
                    console := st.console ++ [Msg.combinedCopied buf.length] }
        else st
      | none => st
    let st :=
      match st.log with
      | LogStatus.opened c => { st with log := LogStatus.closed c }
      | other => { st with log := other }
    Except.ok (st, results)

/-- The parsed command-line arguments (source lines 158-173).  `log : Bool`
    stands for "a non-empty `--log` path was given". -/
structure Args where
  copy : Bool
  combine : Bool
  verbose : Bool
  max_size : Option Rat
  search : Option String
  regex : Bool
  whole_word : Bool
  no_hidden : Bool
  dry_run : Bool
  log : Bool
  interactive_large : Bool
  ignore : List String
  ext : List String

/-- Source line 15. -/
def DEFAULT_IGNORES : List String :=
  ["node_modules", "vendor", ".git", "__pycache__", ".DS_Store"]

/-- Source line 176: `ext.lower() if ext.startswith('.') else f'.\x7bext.lower()\x7d'`. -/
def normalizeExt (e : String) : String :=
  if e.startsWith "." then strLower e else "." ++ strLower e

/-- `main` (source lines 157-215) after a valid root directory was resolved:
    builds the ignore set and extension allow-list, calls `traverse_and_read`
    with `copy_clipboard = args.copy and not args.combine`, catches
    `KeyboardInterrupt` (exit code 1), and prints the summary on normal
    completion (exit code 0).  Startup banner prints are elided. -/
def mainRun (ro : RegexOracle) (args : Args) (rootParts : PathParts)
    (tree : List FSEntry) (ox : PathParts → FileOracle)
    (interruptAt : Option Nat) (priorLog : String) : RunState × Nat :=
  let ignore_set := DEFAULT_IGNORES ++ args.ignore
  let only_exts := args.ext.map normalizeExt
  let cfg : Config :=
    { copy_clipboard := args.copy && !args.combine,
      verbose := args.verbose,
      max_size_mb := args.max_size,
      search := args.search,
      regex := args.regex,
      whole_word := args.whole_word,
      dry_run := args.dry_run,
      interactive_large := args.interactive_large }
  match traverse_and_read ro ignore_set only_exts (!args.no_hidden) args.combine
      args.log cfg rootParts tree ox interruptAt priorLog with
  | Except.error st => ({ st with console := st.console ++ [Msg.interrupted] }, 1)
  | Except.ok (st, _) => ({ st with console := st.console ++ [Msg.summaryOut st.summary] }, 0)

/-! ### Helper lemmas about the path classifier and the walk -/

lemma should_ignore_iff (path : PathParts) (ig : List String) (ih : Bool) :
    should_ignore path ig ih = true ↔
      ((ih = false ∧ ∃ p ∈ path, p ≠ "." ∧ p.startsWith ".") ∨ ∃ p ∈ path, p ∈ ig) := by
  unfold should_ignore
  split
  · rename_i h
    simp only [Bool.and_eq_true, Bool.not_eq_true', List.any_eq_true, bne_iff_ne, ne_eq] at h
    simp only [true_iff]
    exact Or.inl ⟨h.1, h.2⟩
  · rename_i h
    simp only [Bool.and_eq_true, Bool.not_eq_true', List.any_eq_true, bne_iff_ne, ne_eq,
      not_and, not_exists] at h
    simp only [List.any_eq_true, List.elem_iff]
    constructor
    · intro hm
      exact Or.inr hm
    · intro hm
      rcases hm with hm | hm
      · exact absurd (by simpa using hm.2) (by simpa using h hm.1)
      · exact hm

lemma should_ignore_append (p q : PathParts) (ig : List String) (ih : Bool)
    (h : should_ignore p ig ih = true) : should_ignore (p ++ q) ig ih = true := by
  rw [should_ignore_iff] at h ⊢
  rcases h with ⟨hih, x, hx, hp⟩ | ⟨x, hx, hp⟩
  · exact Or.inl ⟨hih, x, List.mem_append_left _ hx, hp⟩
  · exact Or.inr ⟨x, List.mem_append_left _ hx, hp⟩

lemma walkSubdirs_nil_of_ignored (ig exts : List String) (ih : Bool) (p : PathParts)
    (h : should_ignore p ig ih = true) :
    ∀ es : List FSEntry, walkSubdirs ig ih exts p es = [] := by
  intro es
  induction es with
  | nil => simp [walkSubdirs]
  | cons e rest ihrest =>
    cases e with
    | file n => simpa [walkSubdirs] using ihrest
    | dir n sub =>
      rw [walkSubdirs]
      rw [should_ignore_append p [n] ig ih h]
      simpa using ihrest

lemma walkDir_nil_of_ignored (ig exts : List String) (ih : Bool) (p : PathParts)
    (es : List FSEntry) (h : should_ignore p ig ih = true) :
    walkDir ig ih exts p es = [] := by
  rw [walkDir]
  rw [walkSubdirs_nil_of_ignored ig exts ih p h es]
  simp only [List.append_nil]
  apply List.filterMap_eq_nil_iff.mpr
  intro e he
  cases e with
  | file n => simp [should_ignore_append p [n] ig ih h]
  | dir n sub => rfl

/-! ### Helper lemmas about the per-file pipeline -/

def LogStatus.isOpened : LogStatus → Bool
  | LogStatus.opened _ => true
  | _ => false

/-- Whether the emission phase completes without any of its three outward
    effects raising. -/
def emitOK (cfg : Config) (ox : FileOracle) (logOpen : Bool) : Bool :=
  !ox.printRaises && !(logOpen && ox.logWriteRaises) &&
    !(cfg.copy_clipboard && ox.clipboardRaises)

lemma pfcClip_spec (cfg : Config) (path : PathParts) (ox : FileOracle) (c : String)
    (tr : List Step) (st : RunState) :
    (pfcClip cfg path ox c tr st).2.2 = tr ∧
    (pfcClip cfg path ox c tr st).1.summary = st.summary ∧
    (pfcClip cfg path ox c tr st).1.log = st.log ∧
    ((pfcClip cfg path ox c tr st).2.1 = FileOutcome.processed ∨
      (pfcClip cfg path ox c tr st).2.1 = FileOutcome.failed) ∧
    ((pfcClip cfg path ox c tr st).2.1 = FileOutcome.processed →
      (pfcClip cfg path ox c tr st).1.combined = st.combined.map (fun l => l ++ [c])) ∧
    ((pfcClip cfg path ox c tr st).2.1 = FileOutcome.failed →
      (pfcClip cfg path ox c tr st).1.combined = st.combined ∧
      (pfcClip cfg path ox c tr st).1.clipboard = st.clipboard ∧
      (pfcClip cfg path ox c tr st).1.console = st.console ++ [Msg.failed path]) ∧
    (cfg.copy_clipboard = false →
      (pfcClip cfg path ox c tr st).1.clipboard = st.clipboard) ∧
    (∃ l, (pfcClip cfg path ox c tr st).1.console = st.console ++ l) ∧
    ((pfcClip cfg path ox c tr st).2.1 = FileOutcome.processed ↔
      (cfg.copy_clipboard && ox.clipboardRaises) = false) := by
  unfold pfcClip pfcCombine
  by_cases hcp : cfg.copy_clipboard <;> by_cases hcr : ox.clipboardRaises <;>
    cases hcb : st.combined <;> simp [hcp, hcr, hcb]

lemma pfcEmit_spec (cfg : Config) (path : PathParts) (ox : FileOracle) (n : Nat)
    (c : String) (tr : List Step) (st : RunState) :
    (pfcEmit cfg path ox n c tr st).2.2 = tr ++ [Step.emit] ∧
    (pfcEmit cfg path ox n c tr st).1.summary =
      bumpSummary st.summary (c.data.count '\n') n (normExtOf path) ∧
    ((pfcEmit cfg path ox n c tr st).2.1 = FileOutcome.processed ∨
      (pfcEmit cfg path ox n c tr st).2.1 = FileOutcome.failed) ∧
    ((pfcEmit cfg path ox n c tr st).2.1 = FileOutcome.processed ↔
      emitOK cfg ox st.log.isOpened = true) ∧
    ((pfcEmit cfg path ox n c tr st).2.1 = FileOutcome.processed →
      (pfcEmit cfg path ox n c tr st).1.combined = st.combined.map (fun l => l ++ [c])) ∧
    ((pfcEmit cfg path ox n c tr st).2.1 = FileOutcome.failed →
      (pfcEmit cfg path ox n c tr st).1.combined = st.combined) ∧
    (∀ L, st.log = LogStatus.opened L →
      (pfcEmit cfg path ox n c tr st).1.log = LogStatus.opened L ∨
      (pfcEmit cfg path ox n c tr st).1.log = LogStatus.opened (L ++ logEntry path c)) ∧
    ((pfcEmit cfg path ox n c tr st).2.1 = FileOutcome.processed →
      ∀ L, st.log = LogStatus.opened L →
        (pfcEmit cfg path ox n c tr st).1.log = LogStatus.opened (L ++ logEntry path c)) ∧
    (st.log = LogStatus.noLog → (pfcEmit cfg path ox n c tr st).1.log = LogStatus.noLog) ∧
    (cfg.copy_clipboard = false →
      (pfcEmit cfg path ox n c tr st).1.clipboard = st.clipboard) ∧
    (∃ l, (pfcEmit cfg path ox n c tr st).1.console = st.console ++ l) ∧
    ((pfcEmit cfg path ox n c tr st).2.1 = FileOutcome.failed →
      Msg.failed path ∈ (pfcEmit cfg path ox n c tr st).1.console) := by
  unfold pfcEmit pfcClip pfcCombine
  by_cases hpr : ox.printRaises <;> cases hlog : st.log <;>
    by_cases hlw : ox.logWriteRaises <;> by_cases hcp : cfg.copy_clipboard <;>
    by_cases hcr : ox.clipboardRaises <;> cases hcb : st.combined <;>
    simp_all [emitOK, LogStatus.isOpened, List.append_assoc]

lemma pfcRead_spec (ro : RegexOracle) (cfg : Config) (path : PathParts) (ox : FileOracle)
    (n : Nat) (tr : List Step) (st : RunState) (r : RunState × FileOutcome × List Step)
    (h : pfcRead ro cfg path ox n tr st = r) :
    (r.2.1 = FileOutcome.dryRunSkip ∨ r.2.1 = FileOutcome.noMatch ∨
      r.2.1 = FileOutcome.failed ∨ r.2.1 = FileOutcome.processed) ∧
    (r.2.1 = FileOutcome.dryRunSkip ∨ r.2.1 = FileOutcome.noMatch →
      r.1.summary = st.summary ∧ r.1.combined = st.combined ∧ r.1.log = st.log ∧
      r.1.clipboard = st.clipboard) ∧
    (r.1.summary = st.summary ∨
      ∃ c, ox.readContent = some c ∧
        (∀ q, cfg.search = some q → q ≠ "" →
          matches_search ro c q cfg.regex cfg.whole_word = Except.ok true) ∧
        r.1.summary = bumpSummary st.summary (c.data.count '\n') n (normExtOf path)) ∧
    (r.2.1 = FileOutcome.processed →
      ∃ c, ox.readContent = some c ∧ r.1.combined = st.combined.map (fun l => l ++ [c])) ∧
    (r.2.1 ≠ FileOutcome.processed → r.1.combined = st.combined) ∧
    (∀ L, st.log = LogStatus.opened L →
      r.1.log = LogStatus.opened L ∨
      ∃ c, ox.readContent = some c ∧ r.1.log = LogStatus.opened (L ++ logEntry path c)) ∧
    (r.2.1 = FileOutcome.processed → ∀ L, st.log = LogStatus.opened L →
      ∃ c, ox.readContent = some c ∧ r.1.log = LogStatus.opened (L ++ logEntry path c)) ∧
    (st.log = LogStatus.noLog → r.1.log = LogStatus.noLog) ∧
    (cfg.copy_clipboard = false → r.1.clipboard = st.clipboard) ∧
    (∃ l, r.1.console = st.console ++ l) ∧
    (r.2.1 = FileOutcome.failed → Msg.failed path ∈ r.1.console) ∧
    (ox.printRaises = false → ox.logWriteRaises = false → ox.clipboardRaises = false →
      r.2.1 = FileOutcome.failed →
      r.1.summary = st.summary ∧ r.1.combined = st.combined ∧ r.1.log = st.log ∧
      r.1.clipboard = st.clipboard) ∧
    (∃ s, r.2.2 = tr ++ s ∧
      s.Sublist [Step.dryRunAnnounce, Step.openRead, Step.searchEval, Step.emit]) ∧
    (cfg.dry_run = true → r.2.2 = tr ++ [Step.dryRunAnnounce]) ∧
    (cfg.dry_run = false → ∃ s, r.2.2 = tr ++ s ∧ Step.dryRunAnnounce ∉ s) ∧
    (r.2.1 = FileOutcome.dryRunSkip ↔ cfg.dry_run = true) := by
  subst h
  unfold pfcRead
  by_cases hdr : cfg.dry_run
  · simp only [hdr, if_true]
    simp [hdr]
    exact fun L hL => Or.inl hL
  · cases hrc : ox.readContent with
    | none => simp [hdr, hrc]
    | some c =>
      have hemit : ∀ tr2 : List Step,
          tr2 = tr ++ [Step.openRead] ∨ tr2 = tr ++ [Step.openRead, Step.searchEval] →
          (∀ q, cfg.search = some q → q ≠ "" →
            matches_search ro c q cfg.regex cfg.whole_word = Except.ok true) →
          ((pfcEmit cfg path ox n c tr2 st).2.1 = FileOutcome.dryRunSkip ∨
            (pfcEmit cfg path ox n c tr2 st).2.1 = FileOutcome.noMatch ∨
            (pfcEmit cfg path ox n c tr2 st).2.1 = FileOutcome.failed ∨
            (pfcEmit cfg path ox n c tr2 st).2.1 = FileOutcome.processed) ∧
          ((pfcEmit cfg path ox n c tr2 st).2.1 = FileOutcome.dryRunSkip ∨
            (pfcEmit cfg path ox n c tr2 st).2.1 = FileOutcome.noMatch →
            (pfcEmit cfg path ox n c tr2 st).1.summary = st.summary ∧
            (pfcEmit cfg path ox n c tr2 st).1.combined = st.combined ∧
            (pfcEmit cfg path ox n c tr2 st).1.log = st.log ∧
            (pfcEmit cfg path ox n c tr2 st).1.clipboard = st.clipboard) ∧
          ((pfcEmit cfg path ox n c tr2 st).1.summary = st.summary ∨
            ∃ c2, ox.readContent = some c2 ∧
              (∀ q, cfg.search = some q → q ≠ "" →
                matches_search ro c2 q cfg.regex cfg.whole_word = Except.ok true) ∧
              (pfcEmit cfg path ox n c tr2 st).1.summary =
                bumpSummary st.summary (c2.data.count '\n') n (normExtOf path)) ∧
          ((pfcEmit cfg path ox n c tr2 st).2.1 = FileOutcome.processed →
            ∃ c2, ox.readContent = some c2 ∧
              (pfcEmit cfg path ox n c tr2 st).1.combined =
                st.combined.map (fun l => l ++ [c2])) ∧
          ((pfcEmit cfg path ox n c tr2 st).2.1 ≠ FileOutcome.processed →
            (pfcEmit cfg path ox n c tr2 st).1.combined = st.combined) ∧
          (∀ L, st.log = LogStatus.opened L →
            (pfcEmit cfg path ox n c tr2 st).1.log = LogStatus.opened L ∨
            ∃ c2, ox.readContent = some c2 ∧
              (pfcEmit cfg path ox n c tr2 st).1.log =
                LogStatus.opened (L ++ logEntry path c2)) ∧
          ((pfcEmit cfg path ox n c tr2 st).2.1 = FileOutcome.processed →
            ∀ L, st.log = LogStatus.opened L →
            ∃ c2, ox.readContent = some c2 ∧
              (pfcEmit cfg path ox n c tr2 st).1.log =
                LogStatus.opened (L ++ logEntry path c2)) ∧
          (st.log = LogStatus.noLog →
            (pfcEmit cfg path ox n c tr2 st).1.log = LogStatus.noLog) ∧
          (cfg.copy_clipboard = false →
            (pfcEmit cfg path ox n c tr2 st).1.clipboard = st.clipboard) ∧
          (∃ l, (pfcEmit cfg path ox n c tr2 st).1.console = st.console ++ l) ∧
          ((pfcEmit cfg path ox n c tr2 st).2.1 = FileOutcome.failed →
            Msg.failed path ∈ (pfcEmit cfg path ox n c tr2 st).1.console) ∧
          (ox.printRaises = false → ox.logWriteRaises = false → ox.clipboardRaises = false →
            (pfcEmit cfg path ox n c tr2 st).2.1 = FileOutcome.failed →
            (pfcEmit cfg path ox n c tr2 st).1.summary = st.summary ∧
            (pfcEmit cfg path ox n c tr2 st).1.combined = st.combined ∧
            (pfcEmit cfg path ox n c tr2 st).1.log = st.log ∧
            (pfcEmit cfg path ox n c tr2 st).1.clipboard = st.clipboard) ∧
          (∃ s, (pfcEmit cfg path ox n c tr2 st).2.2 = tr ++ s ∧
            s.Sublist [Step.dryRunAnnounce, Step.openRead, Step.searchEval, Step.emit]) ∧
          (cfg.dry_run = true →
            (pfcEmit cfg path ox n c tr2 st).2.2 = tr ++ [Step.dryRunAnnounce]) ∧
          (cfg.dry_run = false →
            ∃ s, (pfcEmit cfg path ox n c tr2 st).2.2 = tr ++ s ∧
              Step.dryRunAnnounce ∉ s) ∧
          ((pfcEmit cfg path ox n c tr2 st).2.1 = FileOutcome.dryRunSkip ↔
            cfg.dry_run = true) := by
        intro tr2 htr2 hms
        rcases pfcEmit_spec cfg path ox n c tr2 st with
          ⟨e1, e2, e3, e4, e5, e6, e7, e8, e9, e10, e11, e12⟩
        have hne : (pfcEmit cfg path ox n c tr2 st).2.1 ≠ FileOutcome.dryRunSkip ∧
            (pfcEmit cfg path ox n c tr2 st).2.1 ≠ FileOutcome.noMatch := by
          rcases e3 with h3 | h3 <;> simp [h3]
        refine ⟨?_, ?_, ?_, ?_, ?_, ?_, ?_, ?_, ?_, ?_, ?_, ?_, ?_, ?_, ?_, ?_⟩
        · rcases e3 with h3 | h3 <;> simp [h3]
        · intro hc; rcases hc with hc | hc
          · exact absurd hc hne.1
          · exact absurd hc hne.2
        · exact Or.inr ⟨c, hrc, hms, e2⟩
        · intro hp; exact ⟨c, hrc, e5 hp⟩
        · intro hp
          rcases e3 with h3 | h3
          · exact absurd h3 hp
          · exact e6 h3
        · intro L hL
          rcases e7 L hL with h7 | h7
          · exact Or.inl h7
          · exact Or.inr ⟨c, hrc, h7⟩
        · intro hp L hL; exact ⟨c, hrc, e8 hp L hL⟩
        · exact e9
        · exact e10
        · exact e11
        · exact e12
        · intro h1 h2 h3 hf
          exfalso
          have : (pfcEmit cfg path ox n c tr2 st).2.1 = FileOutcome.processed := by
            rw [e4]
            unfold emitOK
            simp [h1, h2, h3]
          rw [this] at hf; exact absurd hf (by simp)
        · rcases htr2 with h | h
          · exact ⟨[Step.openRead, Step.emit],
              by rw [e1, h]; simp [List.append_assoc], by decide⟩
          · exact ⟨[Step.openRead, Step.searchEval, Step.emit],
              by rw [e1, h]; simp [List.append_assoc], by decide⟩
        · intro hd; exact absurd hd hdr
        · intro hd2
          rcases htr2 with h | h
          · exact ⟨[Step.openRead, Step.emit],
              by rw [e1, h]; simp [List.append_assoc], by decide⟩
          · exact ⟨[Step.openRead, Step.searchEval, Step.emit],
              by rw [e1, h]; simp [List.append_assoc], by decide⟩
        · constructor
          · intro hc; exact absurd hc hne.1
          · intro hd; exact absurd hd hdr
      cases hs : cfg.search with
      | none =>
        have := hemit (tr ++ [Step.openRead]) (Or.inl rfl) (by intro q hq; simp [hs] at hq)
        simpa [pfcRead, hdr, hrc, hs] using this
      | some q =>
        by_cases hq : q = ""
        · have := hemit (tr ++ [Step.openRead]) (Or.inl rfl)
            (by intro q2 hq2 hq2ne; rw [hs] at hq2; cases hq2; exact absurd hq hq2ne)
          simpa [pfcRead, hdr, hrc, hs, hq] using this
        · cases hms : matches_search ro c q cfg.regex cfg.whole_word with
          | error e =>
            simp [hdr, hrc, hs, hq, hms]
            exact fun L hL => Or.inl hL
          | ok b =>
            cases b with
            | false =>
              simp [hdr, hrc, hs, hq, hms]
              exact fun L hL => Or.inl hL
            | true =>
              have := hemit (tr ++ [Step.openRead, Step.searchEval]) (Or.inr rfl)
                (by intro q2 hq2 hq2ne; rw [hs] at hq2; cases hq2; exact hms)
              simpa [pfcRead, hdr, hrc, hs, hq, hms, List.append_assoc] using this

lemma pfcAfterSizeGate_spec (ro : RegexOracle) (cfg : Config) (path : PathParts)
    (ox : FileOracle) (n : Nat) (tr : List Step) (st : RunState)
    (r : RunState × FileOutcome × List Step)
    (h : pfcAfterSizeGate ro cfg path ox n tr st = r) :
    r.2.1 ≠ FileOutcome.skippedTooLarge ∧
    (r.2.1 = FileOutcome.skippedBinary ↔ is_binary_file ox.binChunk = true) ∧
    (r.2.1 = FileOutcome.skippedBinary ∨ r.2.1 = FileOutcome.dryRunSkip ∨
        r.2.1 = FileOutcome.noMatch →
      r.1.summary = st.summary ∧ r.1.combined = st.combined ∧ r.1.log = st.log ∧
      r.1.clipboard = st.clipboard) ∧
    (r.1.summary = st.summary ∨
      ∃ c, ox.readContent = some c ∧
        (∀ q, cfg.search = some q → q ≠ "" →
          matches_search ro c q cfg.regex cfg.whole_word = Except.ok true) ∧
        r.1.summary = bumpSummary st.summary (c.data.count '\n') n (normExtOf path)) ∧
    (r.2.1 = FileOutcome.processed →
      ∃ c, ox.readContent = some c ∧ r.1.combined = st.combined.map (fun l => l ++ [c])) ∧
    (r.2.1 ≠ FileOutcome.processed → r.1.combined = st.combined) ∧
    (∀ L, st.log = LogStatus.opened L →
      r.1.log = LogStatus.opened L ∨
      ∃ c, ox.readContent = some c ∧ r.1.log = LogStatus.opened (L ++ logEntry path c)) ∧
    (r.2.1 = FileOutcome.processed → ∀ L, st.log = LogStatus.opened L →
      ∃ c, ox.readContent = some c ∧ r.1.log = LogStatus.opened (L ++ logEntry path c)) ∧
    (st.log = LogStatus.noLog → r.1.log = LogStatus.noLog) ∧
    (cfg.copy_clipboard = false → r.1.clipboard = st.clipboard) ∧
    (∃ l, r.1.console = st.console ++ l) ∧
    (r.2.1 = FileOutcome.failed → Msg.failed path ∈ r.1.console) ∧
    (ox.printRaises = false → ox.logWriteRaises = false → ox.clipboardRaises = false →
      r.2.1 = FileOutcome.failed →
      r.1.summary = st.summary ∧ r.1.combined = st.combined ∧ r.1.log = st.log ∧
      r.1.clipboard = st.clipboard) ∧
    (∃ s, r.2.2 = tr ++ [Step.binaryCheck] ++ s ∧
      s.Sublist [Step.dryRunAnnounce, Step.openRead, Step.searchEval, Step.emit]) ∧
    (cfg.dry_run = true →
      (is_binary_file ox.binChunk = true ∧ r.2.2 = tr ++ [Step.binaryCheck]) ∨
      (is_binary_file ox.binChunk = false ∧
        r.2.2 = tr ++ [Step.binaryCheck, Step.dryRunAnnounce])) ∧
    (r.2.1 = FileOutcome.skippedBinary → r.2.2 = tr ++ [Step.binaryCheck]) ∧
    (cfg.dry_run = false → ∃ s, r.2.2 = tr ++ s ∧ Step.dryRunAnnounce ∉ s) ∧
    (r.2.1 = FileOutcome.dryRunSkip ↔
      (cfg.dry_run = true ∧ is_binary_file ox.binChunk = false)) := by
  subst h
  unfold pfcAfterSizeGate
  by_cases hb : is_binary_file ox.binChunk
  · by_cases hv : cfg.verbose <;> simp [hb, hv] <;>
      try exact fun L hL => Or.inl hL
  · rcases pfcRead_spec ro cfg path ox n (tr ++ [Step.binaryCheck]) st _ rfl with
      ⟨g1, g2, g3, g4, g5, g6, g7, g8, g9, g10, g11, g12, g13, g14, g15, g16⟩
    simp only [hb, Bool.false_eq_true, if_false, ite_false]
    have hnb : (pfcRead ro cfg path ox n (tr ++ [Step.binaryCheck]) st).2.1 ≠
        FileOutcome.skippedBinary ∧
        (pfcRead ro cfg path ox n (tr ++ [Step.binaryCheck]) st).2.1 ≠
        FileOutcome.skippedTooLarge := by
      rcases g1 with h1 | h1 | h1 | h1 <;> simp [h1]
    refine ⟨hnb.2, ?_, ?_, g3, g4, g5, g6, g7, g8, g9, g10, g11, g12, ?_, ?_, ?_, ?_, ?_⟩
    · simp [hnb.1, hb]
    · intro hc
      rcases hc with hc | hc
      · exact absurd hc hnb.1
      · exact g2 (by tauto)
    · rcases g13 with ⟨s, hs1, hs2⟩
      exact ⟨s, by simp [hs1, List.append_assoc], hs2⟩
    · intro hd
      exact Or.inr ⟨by simp [hb], by simp [g14 hd, List.append_assoc]⟩
    · intro hc
      exact absurd hc hnb.1
    · intro hd
      rcases g15 hd with ⟨s, hs1, hs2⟩
      refine ⟨Step.binaryCheck :: s, by simp [hs1, List.append_assoc], ?_⟩
      simp [hs2]
    · rw [g16]
      simp [hb]

/-- The size gate of source lines 61-69 lets the file through: either no
    threshold is configured, or the size does not exceed it, or the prompt
    of interactive mode was answered "y". -/
def sizeGateOpen (cfg : Config) (ox : FileOracle) (n : Nat) : Prop :=
  match cfg.max_size_mb with
  | none => True
  | some t => sizeMB n ≤ t ∨ (cfg.interactive_large = true ∧ strLower ox.promptAnswer = "y")

/-- The canonical stage order of the per-file pipeline. -/
def canonicalSteps : List Step :=
  [Step.statCall, Step.sizeCheck, Step.prompt, Step.binaryCheck,
   Step.dryRunAnnounce, Step.openRead, Step.searchEval, Step.emit]

lemma pfc_continue (ro : RegexOracle) (cfg : Config) (path : PathParts) (ox : FileOracle)
    (n : Nat) (st st0 : RunState) (tr0 : List Step)
    (htr0 : tr0 = [Step.statCall, Step.sizeCheck] ∨
      tr0 = [Step.statCall, Step.sizeCheck, Step.prompt])
    (hsm : st0.summary = st.summary) (hcb : st0.combined = st.combined)
    (hlg : st0.log = st.log) (hcp : st0.clipboard = st.clipboard)
    (l0 : List Msg) (hl0 : st0.console = st.console ++ l0)
    (hss : ox.statSize = some n)
    (r : RunState × FileOutcome × List Step)
    (hr : pfcAfterSizeGate ro cfg path ox n tr0 st0 = r) :
    (r.2.1 = FileOutcome.skippedTooLarge →
      (∃ n2 t, ox.statSize = some n2 ∧ cfg.max_size_mb = some t ∧ sizeMB n2 > t ∧
        (cfg.interactive_large = true → strLower ox.promptAnswer ≠ "y")) ∧
      (r.2.2 = [Step.statCall, Step.sizeCheck] ∨
        r.2.2 = [Step.statCall, Step.sizeCheck, Step.prompt])) ∧
    (r.2.1 = FileOutcome.skippedBinary →
      is_binary_file ox.binChunk = true ∧
      (r.2.2 = [Step.statCall, Step.sizeCheck, Step.binaryCheck] ∨
        r.2.2 = [Step.statCall, Step.sizeCheck, Step.prompt, Step.binaryCheck])) ∧
    (r.2.1 = FileOutcome.skippedTooLarge ∨ r.2.1 = FileOutcome.skippedBinary ∨
        r.2.1 = FileOutcome.dryRunSkip ∨ r.2.1 = FileOutcome.noMatch →
      r.1.summary = st.summary ∧ r.1.combined = st.combined ∧ r.1.log = st.log ∧
      r.1.clipboard = st.clipboard) ∧
    (r.1.summary = st.summary ∨
      ∃ n2 c, ox.statSize = some n2 ∧ ox.readContent = some c ∧
        (∀ q, cfg.search = some q → q ≠ "" →
          matches_search ro c q cfg.regex cfg.whole_word = Except.ok true) ∧
        r.1.summary = bumpSummary st.summary (c.data.count '\n') n2 (normExtOf path)) ∧
    (r.2.1 = FileOutcome.processed →
      ∃ c, ox.readContent = some c ∧ r.1.combined = st.combined.map (fun l => l ++ [c])) ∧
    (r.2.1 ≠ FileOutcome.processed → r.1.combined = st.combined) ∧
    (∀ L, st.log = LogStatus.opened L →
      r.1.log = LogStatus.opened L ∨
      ∃ c, ox.readContent = some c ∧ r.1.log = LogStatus.opened (L ++ logEntry path c)) ∧
    (r.2.1 = FileOutcome.processed → ∀ L, st.log = LogStatus.opened L →
      ∃ c, ox.readContent = some c ∧ r.1.log = LogStatus.opened (L ++ logEntry path c)) ∧
    (st.log = LogStatus.noLog → r.1.log = LogStatus.noLog) ∧
    (cfg.copy_clipboard = false → r.1.clipboard = st.clipboard) ∧
    (∃ l, r.1.console = st.console ++ l) ∧
    (r.2.1 = FileOutcome.failed → Msg.failed path ∈ r.1.console) ∧
    (ox.printRaises = false → ox.logWriteRaises = false → ox.clipboardRaises = false →
      r.2.1 = FileOutcome.failed →
      r.1.summary = st.summary ∧ r.1.combined = st.combined ∧ r.1.log = st.log ∧
      r.1.clipboard = st.clipboard) ∧
    r.2.2.Sublist canonicalSteps ∧
    (ox.statSize ≠ none → Step.sizeCheck ∈ r.2.2) ∧
    (∀ n2, ox.statSize = some n2 → sizeGateOpen cfg ox n2 → Step.binaryCheck ∈ r.2.2) ∧
    (cfg.dry_run = true →
      Step.openRead ∉ r.2.2 ∧ Step.searchEval ∉ r.2.2 ∧ Step.emit ∉ r.2.2) ∧
    (Step.dryRunAnnounce ∈ r.2.2 →
      cfg.dry_run = true ∧ is_binary_file ox.binChunk = false) ∧
    (∀ n2, ox.statSize = some n2 → sizeGateOpen cfg ox n2 →
      cfg.dry_run = true → is_binary_file ox.binChunk = false →
      Step.dryRunAnnounce ∈ r.2.2) := by
  rcases pfcAfterSizeGate_spec ro cfg path ox n tr0 st0 r hr with
    ⟨a1, a2, a3, a4, a5, a6, a7, a8, a9, a10, a11, a12, a13, a14, a15, a16, a17, a18⟩
  obtain ⟨s, hs1, hs2⟩ := a14
  refine ⟨fun hc => absurd hc a1, ?_, ?_, ?_, ?_, ?_, ?_, ?_, ?_, ?_, ?_, a12, ?_,
    ?_, ?_, ?_, ?_, ?_, ?_⟩
  · intro hc
    refine ⟨a2.mp hc, ?_⟩
    have h16 := a16 hc
    rcases htr0 with h0 | h0 <;> subst h0 <;> simp [h16]
  · intro hc
    have hc3 : r.2.1 = FileOutcome.skippedBinary ∨ r.2.1 = FileOutcome.dryRunSkip ∨
        r.2.1 = FileOutcome.noMatch := by
      rcases hc with hc | hc
      · exact absurd hc a1
      · exact hc
    rcases a3 hc3 with ⟨b1, b2, b3, b4⟩
    exact ⟨by rw [b1, hsm], by rw [b2, hcb], by rw [b3, hlg], by rw [b4, hcp]⟩
  · rcases a4 with h4 | ⟨c, hc1, hc2, hc3⟩
    · exact Or.inl (by rw [h4, hsm])
    · exact Or.inr ⟨n, c, hss, hc1, hc2, by rw [hc3, hsm]⟩
  · intro hp
    rcases a5 hp with ⟨c, hc1, hc2⟩
    exact ⟨c, hc1, by rw [hc2, hcb]⟩
  · intro hp
    rw [a6 hp, hcb]
  · intro L hL
    exact a7 L (by rw [hlg]; exact hL)
  · intro hp L hL
    exact a8 hp L (by rw [hlg]; exact hL)
  · intro hL
    exact a9 (by rw [hlg]; exact hL)
  · intro hc
    rw [a10 hc, hcp]
  · obtain ⟨l, hl⟩ := a11
    exact ⟨l0 ++ l, by rw [hl, hl0, List.append_assoc]⟩
  · intro h1 h2 h3 hf
    rcases a13 h1 h2 h3 hf with ⟨b1, b2, b3, b4⟩
    exact ⟨by rw [b1, hsm], by rw [b2, hcb], by rw [b3, hlg], by rw [b4, hcp]⟩
  · rw [hs1]
    have hcan : canonicalSteps =
        [Step.statCall, Step.sizeCheck, Step.prompt, Step.binaryCheck] ++
          [Step.dryRunAnnounce, Step.openRead, Step.searchEval, Step.emit] := rfl
    rw [hcan]
    rcases htr0 with h0 | h0 <;> subst h0
    · have hpre : ([Step.statCall, Step.sizeCheck, Step.binaryCheck] : List Step).Sublist
          [Step.statCall, Step.sizeCheck, Step.prompt, Step.binaryCheck] := by decide
      simpa [List.append_assoc] using List.Sublist.append hpre hs2
    · have hpre : ([Step.statCall, Step.sizeCheck, Step.prompt,
          Step.binaryCheck] : List Step).Sublist
          [Step.statCall, Step.sizeCheck, Step.prompt, Step.binaryCheck] := by decide
      simpa [List.append_assoc] using List.Sublist.append hpre hs2
  · intro _
    rw [hs1]
    rcases htr0 with h0 | h0 <;> subst h0 <;> simp
  · intro n2 _ _
    rw [hs1]
    rcases htr0 with h0 | h0 <;> subst h0 <;> simp
  · intro hd
    rcases a15 hd with ⟨hbin, htr⟩ | ⟨hbin, htr⟩ <;> rw [htr] <;>
      rcases htr0 with h0 | h0 <;> subst h0 <;> refine ⟨by decide, by decide, by decide⟩
  · intro hmem
    by_cases hdr : cfg.dry_run
    · refine ⟨hdr, ?_⟩
      rcases a15 hdr with ⟨hbin, htr⟩ | ⟨hbin, htr⟩
      · exfalso
        rw [htr] at hmem
        rcases htr0 with h0 | h0 <;> subst h0 <;> exact absurd hmem (by decide)
      · exact hbin
    · exfalso
      rcases a17 (by simpa using hdr) with ⟨s2, hq1, hq2⟩
      rw [hq1] at hmem
      rcases List.mem_append.mp hmem with hm | hm
      · rcases htr0 with h0 | h0 <;> subst h0 <;> exact absurd hm (by decide)
      · exact absurd hm hq2
  · intro n2 _ _ hd hb
    rcases a15 hd with ⟨hbin, htr⟩ | ⟨hbin, htr⟩
    · exact absurd hbin (by simp [hb])
    · rw [htr]
      simp

lemma pfc_spec (ro : RegexOracle) (cfg : Config) (path : PathParts) (ox : FileOracle)
    (st : RunState) (r : RunState × FileOutcome × List Step)
    (h : print_file_contents ro cfg path ox st = r) :
    (r.2.1 = FileOutcome.skippedTooLarge →
      (∃ n2 t, ox.statSize = some n2 ∧ cfg.max_size_mb = some t ∧ sizeMB n2 > t ∧
        (cfg.interactive_large = true → strLower ox.promptAnswer ≠ "y")) ∧
      (r.2.2 = [Step.statCall, Step.sizeCheck] ∨
        r.2.2 = [Step.statCall, Step.sizeCheck, Step.prompt])) ∧
    (r.2.1 = FileOutcome.skippedBinary →
      is_binary_file ox.binChunk = true ∧
      (r.2.2 = [Step.statCall, Step.sizeCheck, Step.binaryCheck] ∨
        r.2.2 = [Step.statCall, Step.sizeCheck, Step.prompt, Step.binaryCheck])) ∧
    (r.2.1 = FileOutcome.skippedTooLarge ∨ r.2.1 = FileOutcome.skippedBinary ∨
        r.2.1 = FileOutcome.dryRunSkip ∨ r.2.1 = FileOutcome.noMatch →
      r.1.summary = st.summary ∧ r.1.combined = st.combined ∧ r.1.log = st.log ∧
      r.1.clipboard = st.clipboard) ∧
    (r.1.summary = st.summary ∨
      ∃ n2 c, ox.statSize = some n2 ∧ ox.readContent = some c ∧
        (∀ q, cfg.search = some q → q ≠ "" →
          matches_search ro c q cfg.regex cfg.whole_word = Except.ok true) ∧
        r.1.summary = bumpSummary st.summary (c.data.count '\n') n2 (normExtOf path)) ∧
    (r.2.1 = FileOutcome.processed →
      ∃ c, ox.readContent = some c ∧ r.1.combined = st.combined.map (fun l => l ++ [c])) ∧
    (r.2.1 ≠ FileOutcome.processed → r.1.combined = st.combined) ∧
    (∀ L, st.log = LogStatus.opened L →
      r.1.log = LogStatus.opened L ∨
      ∃ c, ox.readContent = some c ∧ r.1.log = LogStatus.opened (L ++ logEntry path c)) ∧
    (r.2.1 = FileOutcome.processed → ∀ L, st.log = LogStatus.opened L →
      ∃ c, ox.readContent = some c ∧ r.1.log = LogStatus.opened (L ++ logEntry path c)) ∧
    (st.log = LogStatus.noLog → r.1.log = LogStatus.noLog) ∧
    (cfg.copy_clipboard = false → r.1.clipboard = st.clipboard) ∧
    (∃ l, r.1.console = st.console ++ l) ∧
    (r.2.1 = FileOutcome.failed → Msg.failed path ∈ r.1.console) ∧
    (ox.printRaises = false → ox.logWriteRaises = false → ox.clipboardRaises = false →
      r.2.1 = FileOutcome.failed →
      r.1.summary = st.summary ∧ r.1.combined = st.combined ∧ r.1.log = st.log ∧
      r.1.clipboard = st.clipboard) ∧
    r.2.2.Sublist canonicalSteps ∧
    (ox.statSize ≠ none → Step.sizeCheck ∈ r.2.2) ∧
    (∀ n2, ox.statSize = some n2 → sizeGateOpen cfg ox n2 → Step.binaryCheck ∈ r.2.2) ∧
    (cfg.dry_run = true →
      Step.openRead ∉ r.2.2 ∧ Step.searchEval ∉ r.2.2 ∧ Step.emit ∉ r.2.2) ∧
    (Step.dryRunAnnounce ∈ r.2.2 →
      cfg.dry_run = true ∧ is_binary_file ox.binChunk = false) ∧
    (∀ n2, ox.statSize = some n2 → sizeGateOpen cfg ox n2 →
      cfg.dry_run = true → is_binary_file ox.binChunk = false →
      Step.dryRunAnnounce ∈ r.2.2) := by
  subst h
  unfold print_file_contents
  cases hss : ox.statSize with
  | none =>
    dsimp only
    refine ⟨by simp, by simp, by simp, Or.inl rfl, by simp, fun _ => rfl, ?_, by simp,
      fun hL => hL, fun _ => rfl, ⟨[Msg.failed path], rfl⟩, by simp, ?_, by decide,
      by simp, by simp, ?_, ?_, by simp⟩
    · exact fun L hL => Or.inl hL
    · intro _ _ _ _
      exact ⟨rfl, rfl, rfl, rfl⟩
    · intro _
      exact ⟨by decide, by decide, by decide⟩
    · intro hm
      exact absurd hm (by decide)
  | some n =>
    dsimp only
    cases hmx : cfg.max_size_mb with
    | none =>
      have H := pfc_continue ro cfg path ox n st st [Step.statCall, Step.sizeCheck]
        (Or.inl rfl) rfl rfl rfl rfl [] (by simp) hss _ rfl
      rw [hss, hmx] at H
      exact H
    | some t =>
      dsimp only
      by_cases hgt : sizeMB n > t
      · rw [if_pos hgt]
        by_cases hint : cfg.interactive_large
        · rw [if_pos hint]
          by_cases hans : strLower ox.promptAnswer ≠ "y"
          · rw [if_pos hans]
            dsimp only
            refine ⟨?_, by simp, ?_, Or.inl rfl, by simp, fun _ => rfl, ?_, by simp,
              fun hL => hL, fun _ => rfl, ⟨[Msg.promptLarge path], rfl⟩, by simp, ?_,
              by decide, by simp, ?_, ?_, ?_, ?_⟩
            · intro _
              exact ⟨⟨n, t, rfl, rfl, hgt, fun _ => hans⟩, Or.inr rfl⟩
            · intro _
              exact ⟨rfl, rfl, rfl, rfl⟩
            · exact fun L hL => Or.inl hL
            · intro _ _ _ _
              exact ⟨rfl, rfl, rfl, rfl⟩
            · intro n2 hn2 hgate
              exfalso
              cases hn2
              unfold sizeGateOpen at hgate
              rw [hmx] at hgate
              rcases hgate with hle | ⟨_, hy⟩
              · exact absurd hle (not_le.mpr hgt)
              · exact hans hy
            · intro _
              exact ⟨by decide, by decide, by decide⟩
            · intro hm
              exact absurd hm (by decide)
            · intro n2 hn2 hgate _ _
              exfalso
              cases hn2
              unfold sizeGateOpen at hgate
              rw [hmx] at hgate
              rcases hgate with hle | ⟨_, hy⟩
              · exact absurd hle (not_le.mpr hgt)
              · exact hans hy
          · rw [if_neg hans]
            have H := pfc_continue ro cfg path ox n st
              { st with console := st.console ++ [Msg.promptLarge path] }
              [Step.statCall, Step.sizeCheck, Step.prompt]
              (Or.inr rfl) rfl rfl rfl rfl [Msg.promptLarge path] rfl hss _ rfl
            rw [hss, hmx] at H
            exact H
        · rw [if_neg hint]
          by_cases hv : cfg.verbose
          · rw [if_pos hv]
            dsimp only
            refine ⟨?_, by simp, ?_, Or.inl rfl, by simp, fun _ => rfl, ?_, by simp,
              fun hL => hL, fun _ => rfl, ⟨[Msg.skipLarge path], rfl⟩, by simp, ?_,
              by decide, by simp, ?_, ?_, ?_, ?_⟩
            · intro _
              refine ⟨⟨n, t, rfl, rfl, hgt, fun hi => absurd hi hint⟩, Or.inl rfl⟩
            · intro _
              exact ⟨rfl, rfl, rfl, rfl⟩
            · exact fun L hL => Or.inl hL
            · intro _ _ _ _
              exact ⟨rfl, rfl, rfl, rfl⟩
            · intro n2 hn2 hgate
              exfalso
              cases hn2
              unfold sizeGateOpen at hgate
              rw [hmx] at hgate
              rcases hgate with hle | ⟨hi, _⟩
              · exact absurd hle (not_le.mpr hgt)
              · exact hint hi
            · intro _
              exact ⟨by decide, by decide, by decide⟩
            · intro hm
              exact absurd hm (by decide)
            · intro n2 hn2 hgate _ _
              exfalso
              cases hn2
              unfold sizeGateOpen at hgate
              rw [hmx] at hgate
              rcases hgate with hle | ⟨hi, _⟩
              · exact absurd hle (not_le.mpr hgt)
              · exact hint hi
          · rw [if_neg hv]
            dsimp only
            refine ⟨?_, by simp, ?_, Or.inl rfl, by simp, fun _ => rfl, ?_, by simp,
              fun hL => hL, fun _ => rfl, ⟨[], by simp⟩, by simp, ?_,
              by decide, by simp, ?_, ?_, ?_, ?_⟩
            · intro _
              refine ⟨⟨n, t, rfl, rfl, hgt, fun hi => absurd hi hint⟩, Or.inl rfl⟩
            · intro _
              exact ⟨rfl, rfl, rfl, rfl⟩
            · exact fun L hL => Or.inl hL
            · intro _ _ _ _
              exact ⟨rfl, rfl, rfl, rfl⟩
            · intro n2 hn2 hgate
              exfalso
              cases hn2
              unfold sizeGateOpen at hgate
              rw [hmx] at hgate
              rcases hgate with hle | ⟨hi, _⟩
              · exact absurd hle (not_le.mpr hgt)
              · exact hint hi
            · intro _
              exact ⟨by decide, by decide, by decide⟩
            · intro hm
              exact absurd hm (by decide)
            · intro n2 hn2 hgate _ _
              exfalso
              cases hn2
              unfold sizeGateOpen at hgate
              rw [hmx] at hgate
              rcases hgate with hle | ⟨hi, _⟩
              · exact absurd hle (not_le.mpr hgt)
              · exact hint hi
      · rw [if_neg hgt]
        have H := pfc_continue ro cfg path ox n st st [Step.statCall, Step.sizeCheck]
          (Or.inl rfl) rfl rfl rfl rfl [] (by simp) hss _ rfl
        rw [hss, hmx] at H
        exact H

/-! ### Helper lemmas about the processing loop and the run -/

lemma processLoop_none_spec (ro : RegexOracle) (cfg : Config) (ox : PathParts → FileOracle)
    (ps : List PathParts) : ∀ (i : Nat) (st : RunState),
    ∃ st2 results, processLoop ro cfg ox none ps i st = Except.ok (st2, results) ∧
      results.map Prod.fst = ps ∧
      (∀ buf, st.combined = some buf →
        st2.combined = some (buf ++ results.filterMap (fun pr =>
          if pr.2 = FileOutcome.processed then (ox pr.1).readContent else none))) ∧
      (st.combined = none → st2.combined = none) ∧
      (∀ L, st.log = LogStatus.opened L → ∃ e, st2.log = LogStatus.opened (L ++ e)) ∧
      (st.log = LogStatus.noLog → st2.log = LogStatus.noLog) ∧
      (cfg.copy_clipboard = false → st2.clipboard = st.clipboard) := by
  induction ps with
  | nil =>
    intro i st
    refine ⟨st, [], rfl, rfl, ?_, fun h => h, ?_, fun h => h, fun _ => rfl⟩
    · intro buf hb
      simpa using hb
    · intro L hL
      exact ⟨"", by rw [String.append_empty]; exact hL⟩
  | cons p rest ih =>
    intro i st
    rcases pfc_spec ro cfg p (ox p) st _ rfl with
      ⟨-, -, -, -, c5, c6, c7, -, c9, c10, -, -, -, -, -, -, -, -, -⟩
    rcases ih (i + 1) (print_file_contents ro cfg p (ox p) st).1 with
      ⟨st2, results, hrun, hcover, hcomb, hcombn, hlog, hlogn, hclip⟩
    refine ⟨st2, (p, (print_file_contents ro cfg p (ox p) st).2.1) :: results, ?_,
      by simpa using hcover, ?_, ?_, ?_, ?_, ?_⟩
    · unfold processLoop
      simp [hrun]
    · intro buf hb
      by_cases hp : (print_file_contents ro cfg p (ox p) st).2.1 = FileOutcome.processed
      · rcases c5 hp with ⟨c, hc1, hc2⟩
        have := hcomb (buf ++ [c]) (by rw [hc2, hb]; rfl)
        rw [this]
        simp [hp, hc1, List.append_assoc]
      · have := hcomb buf (by rw [c6 hp]; exact hb)
        rw [this]
        simp [hp]
    · intro hb
      apply hcombn
      by_cases hp : (print_file_contents ro cfg p (ox p) st).2.1 = FileOutcome.processed
      · rcases c5 hp with ⟨c, -, hc2⟩
        rw [hc2, hb]
        rfl
      · rw [c6 hp]
        exact hb
    · intro L hL
      rcases c7 L hL with h | ⟨c, -, h⟩
      · rcases hlog L h with ⟨e, he⟩
        exact ⟨e, he⟩
      · rcases hlog (L ++ logEntry p c) h with ⟨e, he⟩
        exact ⟨logEntry p c ++ e, by rw [← String.append_assoc]; exact he⟩
    · intro hL
      exact hlogn (c9 hL)
    · intro hc
      rw [hclip hc, c10 hc]

lemma processLoop_interrupt_spec (ro : RegexOracle) (cfg : Config)
    (ox : PathParts → FileOracle) (k : Nat) (ps : List PathParts) :
    ∀ (i : Nat) (st : RunState), i ≤ k → k < i + ps.length →
    ∃ st2, processLoop ro cfg ox (some k) ps i st = Except.error st2 ∧
      (∀ L, st.log = LogStatus.opened L → ∃ L2, st2.log = LogStatus.opened L2) := by
  induction ps with
  | nil =>
    intro i st hik hk
    simp only [List.length_nil] at hk
    exact absurd hk (by omega)
  | cons p rest ihr =>
    intro i st hik hk
    by_cases hki : k = i
    · subst hki
      refine ⟨st, ?_, fun L hL => ⟨L, hL⟩⟩
      unfold processLoop
      simp
    · have h1 : i + 1 ≤ k := by omega
      have h2 : k < (i + 1) + rest.length := by
        simp only [List.length_cons] at hk
        omega
      rcases ihr (i + 1) (print_file_contents ro cfg p (ox p) st).1 h1 h2 with
        ⟨st2, herr, hop⟩
      refine ⟨st2, ?_, ?_⟩
      · unfold processLoop
        have : ¬ (some k = some i) := by simpa using hki
        simp only [this, if_false, ite_false, herr]
      · intro L hL
        rcases pfc_spec ro cfg p (ox p) st _ rfl with
          ⟨-, -, -, -, -, -, c7, -, -, -, -, -, -, -, -, -, -, -, -⟩
        rcases c7 L hL with h | ⟨c, -, h⟩
        · exact hop L h
        · exact hop (L ++ logEntry p c) h

lemma traverse_none_spec (ro : RegexOracle) (ig oe : List String) (ihid ca lf : Bool)
    (cfg : Config) (root : PathParts) (tree : List FSEntry) (ox : PathParts → FileOracle)
    (prior : String) :
    ∃ st results, traverse_and_read ro ig oe ihid ca lf cfg root tree ox none prior =
        Except.ok (st, results) ∧
      results.map Prod.fst = walkDir ig ihid oe root tree ∧
      (lf = true → ∃ e, st.log = LogStatus.closed e) ∧
      (lf = false → st.log = LogStatus.noLog) ∧
      (ca = true →
        st.combined = some (results.filterMap (fun pr =>
          if pr.2 = FileOutcome.processed then (ox pr.1).readContent else none)) ∧
        (cfg.copy_clipboard = false →
          st.clipboard =
            (if results.filterMap (fun pr =>
                if pr.2 = FileOutcome.processed then (ox pr.1).readContent else none) = [] then
              ([] : List String)
            else
              [String.intercalate "\n\n" (results.filterMap (fun pr =>
                if pr.2 = FileOutcome.processed then (ox pr.1).readContent else none))]))) ∧
      (ca = false → st.combined = none ∧
        (cfg.copy_clipboard = false → st.clipboard = [])) := by
  obtain ⟨st2, results, hrun, hcover, hcomb, hcombn, hlog, hlogn, hclip⟩ :=
    processLoop_none_spec ro cfg ox (walkDir ig ihid oe root tree) 0 (initState ca lf prior)
  unfold traverse_and_read
  dsimp only
  rw [hrun]
  dsimp only
  cases hca : ca with
  | true =>
    have hc2 : st2.combined = some (results.filterMap (fun pr =>
        if pr.2 = FileOutcome.processed then (ox pr.1).readContent else none)) := by
      have := hcomb [] (by simp [initState, hca])
      simpa using this
    rw [hc2]
    dsimp only
    by_cases hbuf : results.filterMap (fun pr =>
        if pr.2 = FileOutcome.processed then (ox pr.1).readContent else none) = []
    · rw [if_neg (by simp [hbuf])]
      cases hlf : lf with
      | true =>
        rcases hlog "" (by simp [initState, openTruncate, hlf]) with ⟨e, he⟩
        rw [he]
        dsimp only
        refine ⟨_, results, rfl, hcover, fun _ => ⟨"" ++ e, rfl⟩, by simp, ?_, by simp⟩
        intro _
        refine ⟨hc2, ?_⟩
        intro hcp
        rw [if_pos hbuf]
        exact hclip hcp
      | false =>
        have hl2 : st2.log = LogStatus.noLog :=
          hlogn (by simp [initState, hlf])
        rw [hl2]
        dsimp only
        refine ⟨_, results, rfl, hcover, by simp, fun _ => hl2 ▸ rfl, ?_, by simp⟩
        intro _
        refine ⟨hc2, ?_⟩
        intro hcp
        rw [if_pos hbuf]
        exact hclip hcp
    · rw [if_pos ⟨rfl, hbuf⟩]
      dsimp only
      cases hlf : lf with
      | true =>
        rcases hlog "" (by simp [initState, openTruncate, hlf]) with ⟨e, he⟩
        rw [he]
        dsimp only
        refine ⟨_, results, rfl, hcover, fun _ => ⟨"" ++ e, rfl⟩, by simp, ?_, by simp⟩
        intro _
        refine ⟨rfl, ?_⟩
        intro hcp
        rw [if_neg hbuf]
        rw [hclip hcp]
        simp [initState]
      | false =>
        have hl2 : st2.log = LogStatus.noLog :=
          hlogn (by simp [initState, hlf])
        rw [hl2]
        dsimp only
        refine ⟨_, results, rfl, hcover, by simp, fun _ => rfl, ?_, by simp⟩
        intro _
        refine ⟨rfl, ?_⟩
        intro hcp
        rw [if_neg hbuf]
        rw [hclip hcp]
        simp [initState]
  | false =>
    have hc2 : st2.combined = none := hcombn (by simp [initState, hca])
    rw [hc2]
    dsimp only
    cases hlf : lf with
    | true =>
      rcases hlog "" (by simp [initState, openTruncate, hlf]) with ⟨e, he⟩
      rw [he]
      dsimp only
      refine ⟨_, results, rfl, hcover, fun _ => ⟨"" ++ e, rfl⟩, fun h => absurd h (by decide),
        fun h => absurd h (by decide), ?_⟩
      intro _
      refine ⟨hc2, ?_⟩
      intro hcp
      rw [hclip hcp]
      simp [initState]
    | false =>
      have hl2 : st2.log = LogStatus.noLog :=
        hlogn (by simp [initState, hlf])
      rw [hl2]
      dsimp only
      refine ⟨_, results, rfl, hcover, fun h => absurd h (by decide), fun _ => rfl,
        fun h => absurd h (by decide), ?_⟩
      intro _
      refine ⟨hc2, ?_⟩
      intro hcp
      rw [hclip hcp]
      simp [initState]

lemma traverse_interrupt_spec (ro : RegexOracle) (ig oe : List String) (ihid ca lf : Bool)
    (cfg : Config) (root : PathParts) (tree : List FSEntry) (ox : PathParts → FileOracle)
    (k : Nat) (prior : String)
    (hk : k < (walkDir ig ihid oe root tree).length) :
    ∃ st2, traverse_and_read ro ig oe ihid ca lf cfg root tree ox (some k) prior =
        Except.error st2 ∧
      (lf = true → ∃ L, st2.log = LogStatus.opened L) := by
  obtain ⟨st2, herr, hop⟩ := processLoop_interrupt_spec ro cfg ox k
    (walkDir ig ihid oe root tree) 0 (initState ca lf prior) (Nat.zero_le k)
    (by simpa using hk)
  refine ⟨st2, ?_, ?_⟩
  · unfold traverse_and_read
    dsimp only
    rw [herr]
  · intro hlf
    exact hop "" (by simp [initState, openTruncate, hlf])

lemma mainRun_none_code (ro : RegexOracle) (args : Args) (root : PathParts)
    (tree : List FSEntry) (oxs : PathParts → FileOracle) (prior : String) :
    (mainRun ro args root tree oxs none prior).2 = 0 := by
  unfold mainRun
  dsimp only
  obtain ⟨st, results, hrun, -⟩ := traverse_none_spec ro
    (DEFAULT_IGNORES ++ args.ignore) (args.ext.map normalizeExt) (!args.no_hidden)
    args.combine args.log
    { copy_clipboard := args.copy && !args.combine,
      verbose := args.verbose,
      max_size_mb := args.max_size,
      search := args.search,
      regex := args.regex,
      whole_word := args.whole_word,
      dry_run := args.dry_run,
      interactive_large := args.interactive_large }
    root tree oxs prior
  rw [hrun]

/-! ### Concrete fixtures used by witnesses and counterexamples -/

/-- A regex engine in which every pattern compiles and nothing matches. -/
def roTriv : RegexOracle :=
  { compiles := fun _ => true, found := fun _ _ => false, wordFound := fun _ _ => false }

/-- A regex engine in which no pattern compiles (`re.error` on every pattern). -/
def roBad : RegexOracle :=
  { compiles := fun _ => false, found := fun _ _ => false, wordFound := fun _ _ => false }

/-- A well-behaved text file: 5 bytes on stat, printable bytes, two newlines. -/
def oxGood : FileOracle :=
  { statSize := some 5, binChunk := some [104, 105], readContent := some "hi\nthere\n",
    promptAnswer := "", printRaises := false, logWriteRaises := false,
    clipboardRaises := false }

def argsBase : Args :=
  { copy := false, combine := false, verbose := false, max_size := none, search := none,
    regex := false, whole_word := false, no_hidden := false, dry_run := false, log := false,
    interactive_large := false, ignore := [], ext := [] }

def cfgBase : Config :=
  { copy_clipboard := false, verbose := false, max_size_mb := none, search := none,
    regex := false, whole_word := false, dry_run := false, interactive_large := false }

def treeOne : List FSEntry := [FSEntry.file "a.txt"]

def stEmpty : RunState := initState false false ""

/-! ### Claim theorems -/

/-- C9: `should_ignore` returns true iff either hidden files are excluded and
    some path component other than a lone "." starts with ".", or some
    component is a member of the ignore set, and false otherwise; being a
    total Lean function of its arguments it has no side effects and no error
    cases, and with `include_hidden = true` a hidden component alone never
    causes exclusion (the left disjunct is unsatisfiable). -/
theorem C9_should_ignore_characterization (path : PathParts) (ig : List String)
    (ih : Bool) :
    should_ignore path ig ih = true ↔
      ((ih = false ∧ ∃ p ∈ path, p ≠ "." ∧ p.startsWith ".") ∨ ∃ p ∈ path, p ∈ ig) :=
  should_ignore_iff path ig ih

/-- C10: ignore/hidden classification applies to every component of the
    absolute resolved path including ancestors of the scan root: if some
    component of the root path is in the ignore set, or hidden files are
    excluded and some root component (other than ".") starts with ".", then
    the candidate list produced by the walk is empty.  -/
theorem C10_ignored_ancestor_empty_walk (ig exts : List String) (ih : Bool)
    (root : PathParts) (tree : List FSEntry)
    (h : (∃ p ∈ root, p ∈ ig) ∨ (ih = false ∧ ∃ p ∈ root, p ≠ "." ∧ p.startsWith ".")) :
    walkDir ig ih exts root tree = [] := by
  apply walkDir_nil_of_ignored
  rw [should_ignore_iff]
  rcases h with ⟨p, hp, hpi⟩ | ⟨hih, p, hp, hd1, hd2⟩
  · exact Or.inr ⟨p, hp, hpi⟩
  · exact Or.inl ⟨hih, p, hp, hd1, hd2⟩

/-- Witness for C10 at a concrete input: a root resolved beneath a `vendor`
    directory yields an empty candidate list. -/
theorem C10_ignored_ancestor_empty_walk_witness :
    walkDir ["node_modules", "vendor", ".git", "__pycache__", ".DS_Store"] true []
      ["home", "user", "vendor", "proj"]
      [FSEntry.file "a.txt", FSEntry.dir "src" [FSEntry.file "b.py"]] = [] :=
  C10_ignored_ancestor_empty_walk _ _ _ _ _
    (Or.inl ⟨"vendor", by decide, by decide⟩)

/-- C5: a file counted in the run statistics was successfully stat-ed, opened
    and decoded (`readContent = some c`; decode itself is lossy-replace and
    cannot fail) and, if a non-empty search is configured, matched; files
    skipped for size, binary content, dry-run or search non-match leave the
    statistics unchanged; and a counted file contributes exactly file count
    +1, line count += the content's newline count, byte count += the stat
    size, and +1 to the histogram entry of its normalized extension
    (`bumpSummary`). -/
theorem C5_statistics_exact (ro : RegexOracle) (cfg : Config) (path : PathParts)
    (ox : FileOracle) (st : RunState) :
    ((print_file_contents ro cfg path ox st).2.1 = FileOutcome.skippedTooLarge ∨
      (print_file_contents ro cfg path ox st).2.1 = FileOutcome.skippedBinary ∨
      (print_file_contents ro cfg path ox st).2.1 = FileOutcome.dryRunSkip ∨
      (print_file_contents ro cfg path ox st).2.1 = FileOutcome.noMatch →
      (print_file_contents ro cfg path ox st).1.summary = st.summary) ∧
    ((print_file_contents ro cfg path ox st).1.summary ≠ st.summary →
      ∃ n c, ox.statSize = some n ∧ ox.readContent = some c ∧
        (∀ q, cfg.search = some q → q ≠ "" →
          matches_search ro c q cfg.regex cfg.whole_word = Except.ok true) ∧
        (print_file_contents ro cfg path ox st).1.summary =
          bumpSummary st.summary (c.data.count '\n') n (normExtOf path)) := by
  rcases pfc_spec ro cfg path ox st _ rfl with
    ⟨-, -, c3, c4, -, -, -, -, -, -, -, -, -, -, -, -, -, -, -⟩
  refine ⟨fun h => (c3 h).1, ?_⟩
  intro hne
  rcases c4 with h | h
  · exact absurd h hne
  · exact h

/-- Witness for C5: on a concrete well-behaved file the statistics change and
    the exact contribution is as stated. -/
theorem C5_statistics_exact_witness :
    ∃ n c, oxGood.statSize = some n ∧ oxGood.readContent = some c ∧
      (∀ q, cfgBase.search = some q → q ≠ "" →
        matches_search roTriv c q cfgBase.regex cfgBase.whole_word = Except.ok true) ∧
      (print_file_contents roTriv cfgBase ["r", "a.txt"] oxGood stEmpty).1.summary =
        bumpSummary stEmpty.summary (c.data.count '\n') n (normExtOf ["r", "a.txt"]) :=
  (C5_statistics_exact roTriv cfgBase ["r", "a.txt"] oxGood stEmpty).2 (by decide)

/-- C7: the per-file checks run in the fixed order stat, size check, prompt,
    binary check, dry-run announcement, open/read, search, emission (the
    recorded trace is always a sublist of that canonical order); a file
    skipped for size is never subjected to the binary check, the dry-run
    branch, open/read or the search; a file skipped as binary is never
    subjected to the dry-run branch, open/read or the search; the size check
    runs whenever `stat` succeeds and the binary check whenever the size gate
    lets the file through — both also in dry-run mode; dry-run never opens
    the file for content; and a dry-run announcement happens exactly for
    dry-run files that pass both the size gate and the binary check. -/
theorem C7_check_order (ro : RegexOracle) (cfg : Config) (path : PathParts)
    (ox : FileOracle) (st : RunState) :
    (print_file_contents ro cfg path ox st).2.2.Sublist canonicalSteps ∧
    ((print_file_contents ro cfg path ox st).2.1 = FileOutcome.skippedTooLarge →
      Step.binaryCheck ∉ (print_file_contents ro cfg path ox st).2.2 ∧
      Step.dryRunAnnounce ∉ (print_file_contents ro cfg path ox st).2.2 ∧
      Step.openRead ∉ (print_file_contents ro cfg path ox st).2.2 ∧
      Step.searchEval ∉ (print_file_contents ro cfg path ox st).2.2 ∧
      Step.emit ∉ (print_file_contents ro cfg path ox st).2.2) ∧
    ((print_file_contents ro cfg path ox st).2.1 = FileOutcome.skippedBinary →
      Step.dryRunAnnounce ∉ (print_file_contents ro cfg path ox st).2.2 ∧
      Step.openRead ∉ (print_file_contents ro cfg path ox st).2.2 ∧
      Step.searchEval ∉ (print_file_contents ro cfg path ox st).2.2 ∧
      Step.emit ∉ (print_file_contents ro cfg path ox st).2.2) ∧
    (ox.statSize ≠ none →
      Step.sizeCheck ∈ (print_file_contents ro cfg path ox st).2.2) ∧
    (∀ n, ox.statSize = some n → sizeGateOpen cfg ox n →
      Step.binaryCheck ∈ (print_file_contents ro cfg path ox st).2.2) ∧
    (cfg.dry_run = true →
      Step.openRead ∉ (print_file_contents ro cfg path ox st).2.2 ∧
      Step.searchEval ∉ (print_file_contents ro cfg path ox st).2.2 ∧
      Step.emit ∉ (print_file_contents ro cfg path ox st).2.2) ∧
    (Step.dryRunAnnounce ∈ (print_file_contents ro cfg path ox st).2.2 →
      cfg.dry_run = true ∧ is_binary_file ox.binChunk = false) ∧
    (∀ n, ox.statSize = some n → sizeGateOpen cfg ox n → cfg.dry_run = true →
      is_binary_file ox.binChunk = false →
      Step.dryRunAnnounce ∈ (print_file_contents ro cfg path ox st).2.2) := by
  rcases pfc_spec ro cfg path ox st _ rfl with
    ⟨c1, c2, -, -, -, -, -, -, -, -, -, -, -, c14, c15, c16, c17, c18, c19⟩
  refine ⟨c14, ?_, ?_, c15, c16, c17, c18, c19⟩
  · intro h
    rcases (c1 h).2 with htr | htr <;> rw [htr] <;>
      exact ⟨by decide, by decide, by decide, by decide, by decide⟩
  · intro h
    rcases (c2 h).2 with htr | htr <;> rw [htr] <;>
      exact ⟨by decide, by decide, by decide, by decide⟩

/-- Witness for C7: on a concrete file the size check is in the trace and the
    binary check follows a passing size gate. -/
theorem C7_check_order_witness :
    Step.sizeCheck ∈ (print_file_contents roTriv cfgBase ["r", "a.txt"] oxGood stEmpty).2.2 ∧
    Step.binaryCheck ∈ (print_file_contents roTriv cfgBase ["r", "a.txt"] oxGood stEmpty).2.2 :=
  ⟨(C7_check_order roTriv cfgBase ["r", "a.txt"] oxGood stEmpty).2.2.2.1 (by decide),
   (C7_check_order roTriv cfgBase ["r", "a.txt"] oxGood stEmpty).2.2.2.2.1 5 rfl
     (by unfold sizeGateOpen; exact trivial)⟩

/-- C8: with a configured max-size threshold, a file whose size in MB is at
    most the threshold — in particular exactly equal to it — is not skipped
    for size and proceeds to the binary check; a size skip implies the size
    was strictly greater than the threshold; and under interactive-large
    mode a declined prompt on an oversized file yields the too-large skip
    with the statistics unchanged (the file is not counted). -/
theorem C8_size_threshold_boundary (ro : RegexOracle) (cfg : Config) (path : PathParts)
    (ox : FileOracle) (st : RunState) (n : Nat) (t : Rat)
    (hmx : cfg.max_size_mb = some t) (hss : ox.statSize = some n) :
    (sizeMB n ≤ t →
      (print_file_contents ro cfg path ox st).2.1 ≠ FileOutcome.skippedTooLarge ∧
      Step.binaryCheck ∈ (print_file_contents ro cfg path ox st).2.2) ∧
    ((print_file_contents ro cfg path ox st).2.1 = FileOutcome.skippedTooLarge →
      sizeMB n > t) ∧
    (sizeMB n > t → cfg.interactive_large = true → strLower ox.promptAnswer ≠ "y" →
      (print_file_contents ro cfg path ox st).2.1 = FileOutcome.skippedTooLarge ∧
      (print_file_contents ro cfg path ox st).1.summary = st.summary) := by
  rcases pfc_spec ro cfg path ox st _ rfl with
    ⟨c1, -, -, -, -, -, -, -, -, -, -, -, -, -, -, c16, -, -, -⟩
  refine ⟨?_, ?_, ?_⟩
  · intro hle
    constructor
    · intro hc
      rcases (c1 hc).1 with ⟨n2, t2, hn2, ht2, hgt, -⟩
      rw [hss] at hn2
      rw [hmx] at ht2
      cases hn2
      cases ht2
      exact absurd hle (not_le.mpr hgt)
    · exact c16 n hss (by unfold sizeGateOpen; rw [hmx]; exact Or.inl hle)
  · intro hc
    rcases (c1 hc).1 with ⟨n2, t2, hn2, ht2, hgt, -⟩
    rw [hss] at hn2
    rw [hmx] at ht2
    cases hn2
    cases ht2
    exact hgt
  · intro hgt hint hans
    unfold print_file_contents
    rw [hss]
    dsimp only
    rw [hmx]
    dsimp only
    rw [if_pos hgt, if_pos hint, if_pos hans]
    exact ⟨rfl, rfl⟩

/-- Witness for C8: a 1 MiB file against a 1 MB threshold (exact equality in
    the rational model) is not skipped, and a declined interactive prompt on
    an oversized file yields the uncounted too-large skip. -/
theorem C8_size_threshold_boundary_witness :
    ((print_file_contents roTriv
        { cfgBase with max_size_mb := some 1 } ["r", "a.txt"]
        { oxGood with statSize := some 1048576 } stEmpty).2.1 ≠
      FileOutcome.skippedTooLarge ∧
      Step.binaryCheck ∈ (print_file_contents roTriv
        { cfgBase with max_size_mb := some 1 } ["r", "a.txt"]
        { oxGood with statSize := some 1048576 } stEmpty).2.2) ∧
    ((print_file_contents roTriv
        { cfgBase with max_size_mb := some 1, interactive_large := true } ["r", "a.txt"]
        { oxGood with statSize := some 2097152, promptAnswer := "n" } stEmpty).2.1 =
      FileOutcome.skippedTooLarge ∧
      (print_file_contents roTriv
        { cfgBase with max_size_mb := some 1, interactive_large := true } ["r", "a.txt"]
        { oxGood with statSize := some 2097152, promptAnswer := "n" } stEmpty).1.summary =
      stEmpty.summary) :=
  ⟨(C8_size_threshold_boundary roTriv { cfgBase with max_size_mb := some 1 }
      ["r", "a.txt"] { oxGood with statSize := some 1048576 } stEmpty 1048576 1
      rfl rfl).1 (by norm_num [sizeMB]),
   (C8_size_threshold_boundary roTriv
      { cfgBase with max_size_mb := some 1, interactive_large := true }
      ["r", "a.txt"] { oxGood with statSize := some 2097152, promptAnswer := "n" }
      stEmpty 2097152 1 rfl rfl).2.2 (by norm_num [sizeMB]) rfl (by decide)⟩

def oxLogFail : FileOracle := { oxGood with logWriteRaises := true }

def oxReadFail : FileOracle := { oxGood with readContent := none }

def stLogOpen : RunState := initState false true ""

/-- C4 counterexample: a file whose log write raises (after a successful
    open, decode and match) is reported as failed, yet it has already been
    counted: the statistics gained the file.  This falsifies "statistics are
    unchanged by a failed file, for every point at which the failure
    occurs". -/
theorem C4_counterexample :
    (print_file_contents roTriv cfgBase ["r", "a.txt"] oxLogFail stLogOpen).2.1 =
      FileOutcome.failed ∧
    (print_file_contents roTriv cfgBase ["r", "a.txt"] oxLogFail
      stLogOpen).1.summary.files_read = stLogOpen.summary.files_read + 1 := by
  decide

/-- C4 as amended: an exception at any point of per-file processing is caught
    per file and the file is reported as failed on the console; the run
    continues with every remaining candidate (the loop yields an outcome for
    each candidate); and when the failure is raised before the emission
    phase — i.e. none of the print/log-write/clipboard effects raises, so
    the exception came from stat, open/read or the search — the failed file
    leaves the statistics, the log, the clipboard and the combine buffer
    unchanged.  (A failure during emission occurs after the statistics
    update; see the counterexample.) -/
theorem C4_failure_isolation :
    (∀ (ro : RegexOracle) (cfg : Config) (path : PathParts) (ox : FileOracle)
        (st : RunState),
      (print_file_contents ro cfg path ox st).2.1 = FileOutcome.failed →
      Msg.failed path ∈ (print_file_contents ro cfg path ox st).1.console) ∧
    (∀ (ro : RegexOracle) (cfg : Config) (path : PathParts) (ox : FileOracle)
        (st : RunState),
      ox.printRaises = false → ox.logWriteRaises = false → ox.clipboardRaises = false →
      (print_file_contents ro cfg path ox st).2.1 = FileOutcome.failed →
      (print_file_contents ro cfg path ox st).1.summary = st.summary ∧
      (print_file_contents ro cfg path ox st).1.combined = st.combined ∧
      (print_file_contents ro cfg path ox st).1.log = st.log ∧
      (print_file_contents ro cfg path ox st).1.clipboard = st.clipboard) ∧
    (∀ (ro : RegexOracle) (cfg : Config) (oxs : PathParts → FileOracle)
        (ps : List PathParts) (i : Nat) (st : RunState),
      ∃ st2 results, processLoop ro cfg oxs none ps i st = Except.ok (st2, results) ∧
        results.map Prod.fst = ps) := by
  refine ⟨?_, ?_, ?_⟩
  · intro ro cfg path ox st h
    rcases pfc_spec ro cfg path ox st _ rfl with
      ⟨-, -, -, -, -, -, -, -, -, -, -, c12, -, -, -, -, -, -, -⟩
    exact c12 h
  · intro ro cfg path ox st h1 h2 h3 h4
    rcases pfc_spec ro cfg path ox st _ rfl with
      ⟨-, -, -, -, -, -, -, -, -, -, -, -, c13, -, -, -, -, -, -⟩
    exact c13 h1 h2 h3 h4
  · intro ro cfg oxs ps i st
    obtain ⟨st2, results, hrun, hcover, -⟩ := processLoop_none_spec ro cfg oxs ps i st
    exact ⟨st2, results, hrun, hcover⟩

/-- Witness for C4: a concrete file whose read raises is reported failed and
    leaves statistics, log, clipboard and combine buffer unchanged. -/
theorem C4_failure_isolation_witness :
    (print_file_contents roTriv cfgBase ["r", "a.txt"] oxReadFail stEmpty).1.summary =
      stEmpty.summary ∧
    (print_file_contents roTriv cfgBase ["r", "a.txt"] oxReadFail stEmpty).1.combined =
      stEmpty.combined ∧
    (print_file_contents roTriv cfgBase ["r", "a.txt"] oxReadFail stEmpty).1.log =
      stEmpty.log ∧
    (print_file_contents roTriv cfgBase ["r", "a.txt"] oxReadFail stEmpty).1.clipboard =
      stEmpty.clipboard :=
  C4_failure_isolation.2.1 roTriv cfgBase ["r", "a.txt"] oxReadFail stEmpty rfl rfl rfl
    (by decide)

def argsBadRegex : Args := { argsBase with search := some "(", regex := true }

/-- The concrete walk used by the run-level counterexamples (`walkDir` is
    defined by well-founded recursion, so its value on concrete input is
    established by its equations rather than by kernel evaluation). -/
lemma walkDir_fixture :
    walkDir (DEFAULT_IGNORES ++ ([] : List String)) true ([] : List String)
      ["root"] treeOne = [["root", "a.txt"]] := by
  rw [walkDir]
  simp +decide [walkSubdirs, should_ignore, DEFAULT_IGNORES, treeOne]

/-- C1 counterexample: with regex mode and a pattern that does not compile
    (engine `roBad` rejects every pattern, as `re` rejects "("), the
    directory IS walked — the candidate list is non-empty —, the run
    completes with exit code 0 rather than failing with a fatal
    configuration error, and the error surfaces as a per-file failure
    message caught by the per-file handler.  This refutes fail-fast before
    traversal. -/
theorem C1_counterexample :
    walkDir (DEFAULT_IGNORES ++ argsBadRegex.ignore) (!argsBadRegex.no_hidden)
        (argsBadRegex.ext.map normalizeExt) ["root"] treeOne ≠ [] ∧
    (mainRun roBad argsBadRegex ["root"] treeOne (fun _ => oxGood) none "").2 = 0 ∧
    Msg.failed ["root", "a.txt"] ∈
      (mainRun roBad argsBadRegex ["root"] treeOne (fun _ => oxGood) none "").1.console := by
  have hwd : walkDir (DEFAULT_IGNORES ++ argsBadRegex.ignore) (!argsBadRegex.no_hidden)
      (argsBadRegex.ext.map normalizeExt) ["root"] treeOne = [["root", "a.txt"]] :=
    walkDir_fixture
  refine ⟨by rw [hwd]; simp, ?_, ?_⟩
  · unfold mainRun traverse_and_read
    dsimp only
    rw [hwd]
    decide
  · unfold mainRun traverse_and_read
    dsimp only
    rw [hwd]
    decide

/-- C1 as amended: an invalid regex pattern is not validated before
    traversal and never aborts the run: for every file that reaches the
    search step, the `re.error` raised inside `matches_search` is caught by
    the per-file handler — the file's outcome is `failed`, a failure message
    is the only state change — and every run without interrupt completes
    normally with exit code 0 regardless of the regex engine. -/
theorem C1_regex_error_caught_per_file :
    (∀ (ro : RegexOracle) (cfg : Config) (path : PathParts) (ox : FileOracle)
        (st : RunState) (q : String) (n : Nat) (c : String),
      cfg.search = some q → q ≠ "" → cfg.regex = true → ro.compiles q = false →
      cfg.dry_run = false → cfg.max_size_mb = none → ox.statSize = some n →
      is_binary_file ox.binChunk = false → ox.readContent = some c →
      print_file_contents ro cfg path ox st =
        ({ st with console := st.console ++ [Msg.failed path] }, FileOutcome.failed,
          [Step.statCall, Step.sizeCheck, Step.binaryCheck, Step.openRead,
           Step.searchEval])) ∧
    (∀ (ro : RegexOracle) (args : Args) (root : PathParts) (tree : List FSEntry)
        (oxs : PathParts → FileOracle) (prior : String),
      (mainRun ro args root tree oxs none prior).2 = 0) := by
  refine ⟨?_, mainRun_none_code⟩
  intro ro cfg path ox st q n c hq hqne hrx hcomp hdr hmx hss hbin hrc
  unfold print_file_contents pfcAfterSizeGate pfcRead matches_search
  rw [hss]
  dsimp only
  rw [hmx]
  dsimp only
  rw [hbin]
  simp only [Bool.false_eq_true, if_false, ite_false]
  rw [hdr]
  simp only [Bool.false_eq_true, if_false, ite_false]
  rw [hrc]
  dsimp only
  rw [hq]
  dsimp only
  rw [if_pos hqne]
  rw [hrx]
  simp only [if_true, ite_true]
  rw [hcomp]
  simp only [Bool.false_eq_true, if_false, ite_false]
  rfl

/-- Witness for C1 at a concrete input. -/
theorem C1_regex_error_caught_per_file_witness :
    print_file_contents roBad { cfgBase with search := some "(", regex := true }
        ["r", "a.txt"] oxGood stEmpty =
      ({ stEmpty with console := stEmpty.console ++ [Msg.failed ["r", "a.txt"]] },
        FileOutcome.failed,
        [Step.statCall, Step.sizeCheck, Step.binaryCheck, Step.openRead,
         Step.searchEval]) :=
  C1_regex_error_caught_per_file.1 roBad
    { cfgBase with search := some "(", regex := true } ["r", "a.txt"] oxGood stEmpty
    "(" 5 "hi\nthere\n" rfl (by decide) rfl rfl rfl rfl rfl (by decide) rfl

def argsLog : Args := { argsBase with log := true }

/-- C2 counterexample: with pre-existing log file content "OLD", the run
    opens the log in write mode and truncates it: the final (closed) log
    content is exactly the run's own entry and does not start with "OLD".
    This refutes "pre-existing contents of that file are preserved, not
    truncated". -/
theorem C2_counterexample :
    (mainRun roTriv argsLog ["root"] treeOne (fun _ => oxGood) none "OLD").1.log =
      LogStatus.closed "\n--- root/a.txt ---\nhi\nthere\n\n" ∧
    ("\n--- root/a.txt ---\nhi\nthere\n\n").take 3 ≠ "OLD" := by
  have hwd : walkDir (DEFAULT_IGNORES ++ argsLog.ignore) (!argsLog.no_hidden)
      (argsLog.ext.map normalizeExt) ["root"] treeOne = [["root", "a.txt"]] :=
    walkDir_fixture
  refine ⟨?_, by decide⟩
  unfold mainRun traverse_and_read
  dsimp only
  rw [hwd]
  decide

/-- C2 as amended: the log file is opened in write mode, so the run's result
    is independent of whatever the log file contained before (pre-existing
    contents are discarded, not preserved); within the run the sink is
    append-only — each successfully processed file appends exactly its
    `"\n--- path ---\ncontents\n"` entry, and the whole loop only ever
    extends what was already written; and on normal completion of a run with
    a log configured the sink ends closed. -/
theorem C2_log_truncate_and_append :
    (∀ (ro : RegexOracle) (args : Args) (root : PathParts) (tree : List FSEntry)
        (oxs : PathParts → FileOracle) (it : Option Nat) (p1 p2 : String),
      mainRun ro args root tree oxs it p1 = mainRun ro args root tree oxs it p2) ∧
    (∀ (ro : RegexOracle) (cfg : Config) (path : PathParts) (ox : FileOracle)
        (st : RunState) (c L : String),
      (print_file_contents ro cfg path ox st).2.1 = FileOutcome.processed →
      ox.readContent = some c → st.log = LogStatus.opened L →
      (print_file_contents ro cfg path ox st).1.log =
        LogStatus.opened (L ++ logEntry path c)) ∧
    (∀ (ro : RegexOracle) (cfg : Config) (oxs : PathParts → FileOracle)
        (ps : List PathParts) (i : Nat) (st : RunState) (L : String),
      st.log = LogStatus.opened L →
      ∃ st2 results e, processLoop ro cfg oxs none ps i st = Except.ok (st2, results) ∧
        st2.log = LogStatus.opened (L ++ e)) ∧
    (∀ (ro : RegexOracle) (ig oe : List String) (ihid ca : Bool) (cfg : Config)
        (root : PathParts) (tree : List FSEntry) (oxs : PathParts → FileOracle)
        (prior : String),
      ∃ st results e,
        traverse_and_read ro ig oe ihid ca true cfg root tree oxs none prior =
          Except.ok (st, results) ∧ st.log = LogStatus.closed e) := by
  refine ⟨fun _ _ _ _ _ _ _ _ => rfl, ?_, ?_, ?_⟩
  · intro ro cfg path ox st c L hp hrc hL
    rcases pfc_spec ro cfg path ox st _ rfl with
      ⟨-, -, -, -, -, -, -, c8, -, -, -, -, -, -, -, -, -, -, -⟩
    rcases c8 hp L hL with ⟨c2, hc2, hlog⟩
    rw [hrc] at hc2
    cases hc2
    exact hlog
  · intro ro cfg oxs ps i st L hL
    obtain ⟨st2, results, hrun, -, -, -, hlog, -, -⟩ := processLoop_none_spec ro cfg oxs ps i st
    rcases hlog L hL with ⟨e, he⟩
    exact ⟨st2, results, e, hrun, he⟩
  · intro ro ig oe ihid ca cfg root tree oxs prior
    obtain ⟨st, results, hrun, -, hcl, -, -, -⟩ := traverse_none_spec ro ig oe ihid ca
      true cfg root tree oxs prior
    rcases hcl rfl with ⟨e, he⟩
    exact ⟨st, results, e, hrun, he⟩

/-- Witness for C2: a concrete processed file appends exactly its entry to
    the open sink. -/
theorem C2_log_truncate_and_append_witness :
    (print_file_contents roTriv cfgBase ["r", "a.txt"] oxGood stLogOpen).1.log =
      LogStatus.opened ("" ++ logEntry ["r", "a.txt"] "hi\nthere\n") :=
  C2_log_truncate_and_append.2.1 roTriv cfgBase ["r", "a.txt"] oxGood stLogOpen
    "hi\nthere\n" "" (by decide) rfl rfl

/-- C3 counterexample: a keyboard interrupt delivered before the first
    candidate, with a log file configured, exits with code 1 and leaves the
    log sink OPEN — `logger.close()` is never reached.  This refutes "the
    log sink is closed on every exit path". -/
theorem C3_counterexample :
    (mainRun roTriv argsLog ["root"] treeOne (fun _ => oxGood) (some 0) "").2 = 1 ∧
    (mainRun roTriv argsLog ["root"] treeOne (fun _ => oxGood) (some 0) "").1.log =
      LogStatus.opened "" := by
  have hwd : walkDir (DEFAULT_IGNORES ++ argsLog.ignore) (!argsLog.no_hidden)
      (argsLog.ext.map normalizeExt) ["root"] treeOne = [["root", "a.txt"]] :=
    walkDir_fixture
  constructor
  · unfold mainRun traverse_and_read
    dsimp only
    rw [hwd]
    decide
  · unfold mainRun traverse_and_read
    dsimp only
    rw [hwd]
    decide

/-- C3 as amended: the log sink is closed only on normal completion.  A
    keyboard interrupt during processing aborts the run with exit code 1,
    and the log sink is left open (only process exit releases it); a run
    that completes without interrupt closes the sink. -/
theorem C3_interrupt_skips_log_close :
    (∀ (ro : RegexOracle) (args : Args) (root : PathParts) (tree : List FSEntry)
        (oxs : PathParts → FileOracle) (k : Nat) (prior : String),
      k < (walkDir (DEFAULT_IGNORES ++ args.ignore) (!args.no_hidden)
          (args.ext.map normalizeExt) root tree).length →
      args.log = true →
      (mainRun ro args root tree oxs (some k) prior).2 = 1 ∧
      ∃ L, (mainRun ro args root tree oxs (some k) prior).1.log =
        LogStatus.opened L) ∧
    (∀ (ro : RegexOracle) (args : Args) (root : PathParts) (tree : List FSEntry)
        (oxs : PathParts → FileOracle) (prior : String),
      args.log = true →
      ∃ e, (mainRun ro args root tree oxs none prior).1.log = LogStatus.closed e) := by
  constructor
  · intro ro args root tree oxs k prior hk hlog
    obtain ⟨st2, herr, hop⟩ := traverse_interrupt_spec ro
      (DEFAULT_IGNORES ++ args.ignore) (args.ext.map normalizeExt) (!args.no_hidden)
      args.combine args.log
      { copy_clipboard := args.copy && !args.combine,
        verbose := args.verbose,
        max_size_mb := args.max_size,
        search := args.search,
        regex := args.regex,
        whole_word := args.whole_word,
        dry_run := args.dry_run,
        interactive_large := args.interactive_large }
      root tree oxs k prior hk
    unfold mainRun
    dsimp only
    rw [herr]
    exact ⟨rfl, hop hlog⟩
  · intro ro args root tree oxs prior hlog
    obtain ⟨st, results, hrun, -, hcl, -, -, -⟩ := traverse_none_spec ro
      (DEFAULT_IGNORES ++ args.ignore) (args.ext.map normalizeExt) (!args.no_hidden)
      args.combine args.log
      { copy_clipboard := args.copy && !args.combine,
        verbose := args.verbose,
        max_size_mb := args.max_size,
        search := args.search,
        regex := args.regex,
        whole_word := args.whole_word,
        dry_run := args.dry_run,
        interactive_large := args.interactive_large }
      root tree oxs prior
    unfold mainRun
    dsimp only
    rw [hrun]
    exact hcl hlog

/-- Witness for C3 at a concrete input: interrupt before the first file. -/
theorem C3_interrupt_skips_log_close_witness :
    (mainRun roTriv argsLog ["root"] treeOne (fun _ => oxGood) (some 0) "").2 = 1 ∧
    ∃ L, (mainRun roTriv argsLog ["root"] treeOne (fun _ => oxGood) (some 0) "").1.log =
      LogStatus.opened L :=
  C3_interrupt_skips_log_close.1 roTriv argsLog ["root"] treeOne (fun _ => oxGood) 0 ""
    (by
      have h : walkDir (DEFAULT_IGNORES ++ argsLog.ignore) (!argsLog.no_hidden)
          (argsLog.ext.map normalizeExt) ["root"] treeOne = [["root", "a.txt"]] :=
        walkDir_fixture
      rw [h]
      decide)
    rfl

def argsCombine : Args := { argsBase with combine := true }

/-- C6: when combine mode is active, the per-file `--copy` flag has no
    effect (`main` passes `copy_clipboard = copy and not combine = false`,
    so runs with either value of `copy` are identical); and in a combine run
    (per-file clipboard copying off) the combine buffer collects exactly the
    contents of the processed files in traversal order, and the run's whole
    clipboard history is a single write of those contents joined by
    `"\n\n"` — or no write at all when no file was processed. -/
theorem C6_combine_single_clipboard_write :
    (∀ (ro : RegexOracle) (args : Args) (root : PathParts) (tree : List FSEntry)
        (oxs : PathParts → FileOracle) (prior : String) (b1 b2 : Bool),
      args.combine = true →
      mainRun ro { args with copy := b1 } root tree oxs none prior =
        mainRun ro { args with copy := b2 } root tree oxs none prior) ∧
    (∀ (ro : RegexOracle) (ig oe : List String) (ihid lf : Bool) (cfg : Config)
        (root : PathParts) (tree : List FSEntry) (oxs : PathParts → FileOracle)
        (prior : String),
      cfg.copy_clipboard = false →
      ∃ st results,
        traverse_and_read ro ig oe ihid true lf cfg root tree oxs none prior =
          Except.ok (st, results) ∧
        results.map Prod.fst = walkDir ig ihid oe root tree ∧
        st.combined = some (results.filterMap (fun pr =>
          if pr.2 = FileOutcome.processed then (oxs pr.1).readContent else none)) ∧
        st.clipboard =
          (if results.filterMap (fun pr =>
              if pr.2 = FileOutcome.processed then (oxs pr.1).readContent else none) = []
          then ([] : List String)
          else [String.intercalate "\n\n" (results.filterMap (fun pr =>
            if pr.2 = FileOutcome.processed then (oxs pr.1).readContent else none))])) := by
  constructor
  · intro ro args root tree oxs prior b1 b2 hcomb
    unfold mainRun
    dsimp only
    rw [hcomb]
    simp only [Bool.not_true, Bool.and_false]
  · intro ro ig oe ihid lf cfg root tree oxs prior hcp
    obtain ⟨st, results, hrun, hcover, -, -, hca, -⟩ :=
      traverse_none_spec ro ig oe ihid true lf cfg root tree oxs prior
    rcases hca rfl with ⟨hcomb2, hclip2⟩
    exact ⟨st, results, hrun, hcover, hcomb2, hclip2 hcp⟩

/-- Witness for C6 at a concrete input: with `--combine`, toggling `--copy`
    does not change the run at all. -/
theorem C6_combine_single_clipboard_write_witness :
    mainRun roTriv { argsCombine with copy := true } ["root"] treeOne
        (fun _ => oxGood) none "" =
      mainRun roTriv { argsCombine with copy := false } ["root"] treeOne
        (fun _ => oxGood) none "" :=
  C6_combine_single_clipboard_write.1 roTriv argsCombine ["root"] treeOne
    (fun _ => oxGood) "" true false rfl

end CatAllFiles
